import Mathlib

/-!
Verification development for the Move.Text plugin (code.ts, canonical variant).

The embedding models the three components the spec describes — Indexer
(`indexTextNodes`), Matcher (`createScoringMatrix` plus the greedy resolution
loop inside `mapTextNodes`), and Applier (the per-pair write/skip/report logic
of the same loop) — as pure Lean functions, translated from the TypeScript
source.  JavaScript numbers that can carry a fractional part (the match score,
whose only fractional contribution is the path-similarity signal) are modelled
as exact fractions (`Q` below: an integer numerator over a positive natural
denominator, compared by cross-multiplication); host-side mutation of a text
node and host exceptions on write are modelled by an explicit node state
(`TargetNode`) carrying a `locked` flag and a `writeFails` flag, the latter
standing for the host throwing when `characters` is assigned.  String
tokenisation models `toLowerCase().split(/\s+/)` with ASCII lowering and the
usual whitespace classification.
-/

namespace MoveText

/-- Exact fraction standing for a JavaScript number: integer numerator over a
positive natural denominator.  All scores in the Matcher are values of this
type. -/
structure Q where
  num : Int
  den : Nat
  dpos : 0 < den

instance : DecidableEq Q := fun a b =>
  if h1 : a.num = b.num then
    if h2 : a.den = b.den then
      isTrue (by cases a; cases b; cases h1; cases h2; rfl)
    else isFalse (fun h => h2 (congrArg Q.den h))
  else isFalse (fun h => h1 (congrArg Q.num h))

def Q.ofInt (n : Int) : Q := ⟨n, 1, Nat.one_pos⟩

def Q.add (a b : Q) : Q :=
  ⟨a.num * b.den + b.num * a.den, a.den * b.den, Nat.mul_pos a.dpos b.dpos⟩

def Q.mul (a b : Q) : Q := ⟨a.num * b.num, a.den * b.den, Nat.mul_pos a.dpos b.dpos⟩

def Q.le (a b : Q) : Prop := a.num * b.den ≤ b.num * a.den

def Q.lt (a b : Q) : Prop := a.num * b.den < b.num * a.den

instance (a b : Q) : Decidable (Q.le a b) := by unfold Q.le; infer_instance

instance (a b : Q) : Decidable (Q.lt a b) := by unfold Q.lt; infer_instance

/-- Interpretation of a `Q` value as a rational number. -/
def Q.toRat (a : Q) : ℚ := (a.num : ℚ) / (a.den : ℚ)

/-- Font name record (family and style), as in the Figma `FontName` type. -/
structure FontName where
  family : String
  style : String
deriving DecidableEq

/-- One text-bearing leaf as captured by the Indexer (interface `TextItem`).
`name` is the node name (the empty string behaves as an absent name, matching
JavaScript truthiness); `fontSize` and `textStyleId` are optional, with
JavaScript-falsy values (`0`, `""`) treated as absent by the scoring guards. -/
structure TextItem where
  path : List Nat
  name : String
  characters : String
  fontSize : Option Int
  fontName : Option FontName
  textStyleId : Option String
deriving DecidableEq

/-- The mutable host-side text node as seen by the Applier: its name, its
current characters, its `locked` flag, and a `writeFails` flag modelling the
host throwing an exception when the characters are assigned. -/
structure TargetNode where
  name : String
  characters : String
  locked : Bool
  writeFails : Bool
deriving DecidableEq

/-- JavaScript truthiness of an optional number (`undefined` and `0` are
falsy). -/
def optIntTruthy : Option Int → Bool
  | none => false
  | some n => n != 0

/-- JavaScript truthiness of an optional string (`undefined` and `""` are
falsy). -/
def optStrTruthy : Option String → Bool
  | none => false
  | some s => s != ""

/-- Length of the common leading run of two index paths: the loop in
`calculatePathSimilarity` counts matches and stops at the first mismatch. -/
def commonLeadLen : List Nat → List Nat → Nat
  | a :: as, b :: bs => if a = b then 1 + commonLeadLen as bs else 0
  | _, _ => 0

/-- Function `calculatePathSimilarity` from the source: 0 when either path is empty,
otherwise the common leading run divided by the longer path's length. -/
def calculatePathSimilarity (p1 p2 : List Nat) : Q :=
  if h : p1.length = 0 ∨ p2.length = 0 then Q.ofInt 0
  else ⟨(commonLeadLen p1 p2 : Int), max p1.length p2.length, by omega⟩

/-- Tokeniser for `split(/\s+/)`: splits at maximal whitespace runs, keeping
the empty segments that JavaScript produces at a leading or trailing run.
`cur` holds the current token's characters in reverse; `skipping` records
being inside a whitespace run whose preceding token is already emitted. -/
def tokensGo : List Char → List Char → Bool → List (List Char)
  | [], cur, _ => [cur.reverse]
  | c :: rest, cur, skipping =>
    if c.isWhitespace then
      if skipping then tokensGo rest [] true
      else cur.reverse :: tokensGo rest [] true
    else tokensGo rest (c :: cur) false

/-- Models `characters.toLowerCase().split(/\s+/)` as a list of token character
lists (ASCII lowering). -/
def jsWords (s : String) : List (List Char) :=
  tokensGo (s.data.map Char.toLower) [] false

/-- Count of source tokens that occur in the target's token list (Strategy 5's
`commonWords.length`; repeated source tokens count repeatedly). -/
def lexCommonCount (s t : TextItem) : Nat :=
  ((jsWords s.characters).filter (fun w => (jsWords t.characters).contains w)).length

/-- The score of one (source leaf, target leaf) pair: the six weighted
signals of `createScoringMatrix`, summed in source order. -/
def candScore (s t : TextItem) : Q :=
  let s0 := Q.ofInt 0
  let s1 := if s.path = t.path then s0.add (Q.ofInt 1000) else s0
  let s2 := if s.name ≠ "" ∧ s.name = t.name then s1.add (Q.ofInt 500) else s1
  let s3 :=
    match s.fontName, t.fontName with
    | some sf, some tf =>
      if optIntTruthy s.fontSize ∧ optIntTruthy t.fontSize then
        if sf.family = tf.family then
          if s.fontSize = t.fontSize then (s2.add (Q.ofInt 200)).add (Q.ofInt 100)
          else s2.add (Q.ofInt 200)
        else s2
      else s2
    | _, _ => s2
  let s4 :=
    if optStrTruthy s.textStyleId = true ∧ s.textStyleId = t.textStyleId then s3.add (Q.ofInt 300)
    else s3
  let s5 :=
    if 10 < s.characters.length ∧ 10 < t.characters.length then
      s4.add (Q.ofInt (10 * (lexCommonCount s t : Int)))
    else s4
  s5.add ((calculatePathSimilarity s.path t.path).mul (Q.ofInt 50))

/-- One entry of the scoring matrix. -/
structure Cand where
  sourceIndex : Nat
  targetIndex : Nat
  score : Q
deriving DecidableEq

/-- Stable insertion keeping the list sorted by descending score; an incoming
element goes before the elements whose score does not exceed it, which is
exactly where a stable sort by `(a, b) => b.score - a.score` places it. -/
def insertDesc (c : Cand) : List Cand → List Cand
  | [] => [c]
  | d :: ds => if Q.le d.score c.score then c :: d :: ds else d :: insertDesc c ds

/-- Stable sort by descending score (`scores.sort((a, b) => b.score - a.score)`). -/
def sortByScoreDesc : List Cand → List Cand
  | [] => []
  | c :: cs => insertDesc c (sortByScoreDesc cs)

/-- The unsorted candidates of one source item against the target items from
index `j` on (the body of the inner `forEach` of `createScoringMatrix`):
skip already-used target indices, keep a candidate exactly when its score is
positive. -/
def rowCandsFrom (s : TextItem) (used : List Nat) (sourceIndex : Nat) :
    List TextItem → Nat → List Cand
  | [], _ => []
  | t :: ts, j =>
    (if j ∈ used then [] else
      if Q.lt (Q.ofInt 0) (candScore s t) then [⟨sourceIndex, j, candScore s t⟩] else []) ++
      rowCandsFrom s used sourceIndex ts (j + 1)

/-- One row of the scoring matrix: every not-yet-used target with a positive
score against the given source item, sorted by descending score. -/
def rowScores (targetItems : List TextItem) (used : List Nat) (sourceIndex : Nat)
    (s : TextItem) : List Cand :=
  sortByScoreDesc (rowCandsFrom s used sourceIndex targetItems 0)

/-- The rows of the scoring matrix for the source items from index `i` on. -/
def matrixRows (targetItems : List TextItem) (used : List Nat) :
    List TextItem → Nat → List (List Cand)
  | [], _ => []
  | s :: ss, i => rowScores targetItems used i s :: matrixRows targetItems used ss (i + 1)

/-- Function `createScoringMatrix`: one sorted candidate row per source item.  The
source calls it once, before the resolution loop, when `usedIndices` is still
empty. -/
def createScoringMatrix (sourceItems targetItems : List TextItem) (used : List Nat) :
    List (List Cand) :=
  matrixRows targetItems used sourceItems 0

/-- The reason tag of one report line pushed into `details`. -/
inductive Detail where
  | noCandidate (sourceIndex : Nat)
  | allClaimed (sourceIndex : Nat)
  | targetLocked (sourceIndex targetIndex : Nat)
  | writeFailed (sourceIndex targetIndex : Nat)
  | mappedOk (sourceIndex targetIndex : Nat) (score : Q)
deriving DecidableEq

/-- State threaded through the resolution loop of `mapTextNodes`:
`mapped`/`skipped` counters, the claimed target set `usedIndices` (as a list),
the accumulated `details`, the current target nodes, and the percentages sent
to the progress sink, in order. -/
structure LoopState where
  mapped : Nat
  skipped : Nat
  used : List Nat
  details : List Detail
  nodes : List TargetNode
  progress : List Nat
deriving DecidableEq

/-- Out-of-range node access placeholder (never reached on well-formed input,
where every candidate's target index is in range). -/
def defaultNode : TargetNode := ⟨"", "", false, false⟩

/-- Models `Math.round(num / den)` for non-negative arguments, as exact arithmetic:
half-up rounding. -/
def jsRound (num den : Nat) : Nat := (2 * num + den) / (2 * den)

/-- One iteration of the resolution loop of `mapTextNodes` for source index
`i` with candidate row `scores`: report `noCandidate` on an empty row,
otherwise take the first still-unclaimed candidate; failing that report
`allClaimed`; a locked target or a failing write is reported and skipped
without claiming the target; otherwise write the characters, claim the
target, record the score, and notify the progress sink. -/
def step (total i : Nat) (src : TextItem) (scores : List Cand) (st : LoopState) : LoopState :=
  if scores.isEmpty then
    { st with skipped := st.skipped + 1, details := st.details ++ [.noCandidate i] }
  else
    match scores.find? (fun c => !(st.used.contains c.targetIndex)) with
    | none =>
      { st with skipped := st.skipped + 1, details := st.details ++ [.allClaimed i] }
    | some c =>
      let node := st.nodes.getD c.targetIndex defaultNode
      if node.locked then
        { st with skipped := st.skipped + 1,
                  details := st.details ++ [.targetLocked i c.targetIndex] }
      else if node.writeFails then
        { st with skipped := st.skipped + 1,
                  details := st.details ++ [.writeFailed i c.targetIndex] }
      else
        let sc := match scores.find? (fun d => d.targetIndex == c.targetIndex) with
                  | some d => d.score
                  | none => Q.ofInt 0
        { mapped := st.mapped + 1
          skipped := st.skipped
          used := c.targetIndex :: st.used
          details := st.details ++ [.mappedOk i c.targetIndex sc]
          nodes := st.nodes.set c.targetIndex { node with characters := src.characters }
          progress := st.progress ++ [jsRound (100 * (i + 1)) total] }

/-- The resolution loop: processes the zipped (source item, candidate row)
list in source order, counting up the loop index. -/
def runLoop (total : Nat) : Nat → List (TextItem × List Cand) → LoopState → LoopState
  | _, [], st => st
  | i, (src, scores) :: rest, st => runLoop total (i + 1) rest (step total i src scores st)

/-- Result of `mapTextNodes`: the returned counters and details, plus the
final target nodes and the progress notifications of the loop. -/
structure MapResult where
  mapped : Nat
  skipped : Nat
  details : List Detail
  nodes : List TargetNode
  progress : List Nat
deriving DecidableEq

def initState (targetNodes : List TargetNode) : LoopState :=
  ⟨0, 0, [], [], targetNodes, []⟩

/-- Function `mapTextNodes` from the source: build the scoring matrix once (with an
empty claimed set), then run the greedy per-source resolution/apply loop. -/
def mapTextNodes (sourceItems targetItems : List TextItem)
    (targetNodes : List TargetNode) : MapResult :=
  let matrix := createScoringMatrix sourceItems targetItems []
  let total := matrix.length
  let final := runLoop total 0 (sourceItems.zip matrix) (initState targetNodes)
  ⟨final.mapped, final.skipped, final.details, final.nodes, final.progress⟩

/-- A scene node of the document tree: whether it is a TEXT node, its
matching attributes, its host-side mutability flags, and its children.
(Figma TEXT nodes have no children, but the traversal code handles the
general shape, so the model does too.) -/
inductive SNode where
  | mk (isText : Bool) (name : String) (characters : String)
       (fontSize : Option Int) (fontName : Option FontName)
       (textStyleId : Option String) (locked : Bool) (writeFails : Bool)
       (children : List SNode)

def SNode.isText : SNode → Bool
  | .mk b _ _ _ _ _ _ _ _ => b

def SNode.name : SNode → String
  | .mk _ n _ _ _ _ _ _ _ => n

def SNode.characters : SNode → String
  | .mk _ _ c _ _ _ _ _ _ => c

def SNode.fontSize : SNode → Option Int
  | .mk _ _ _ fs _ _ _ _ _ => fs

def SNode.fontName : SNode → Option FontName
  | .mk _ _ _ _ fn _ _ _ _ => fn

def SNode.textStyleId : SNode → Option String
  | .mk _ _ _ _ _ ts _ _ _ => ts

def SNode.locked : SNode → Bool
  | .mk _ _ _ _ _ _ l _ _ => l

def SNode.writeFails : SNode → Bool
  | .mk _ _ _ _ _ _ _ w _ => w

def SNode.children : SNode → List SNode
  | .mk _ _ _ _ _ _ _ _ cs => cs

mutual
def SNode.size : SNode → Nat
  | .mk _ _ _ _ _ _ _ _ cs => 1 + sizeList cs
def sizeList : List SNode → Nat
  | [] => 0
  | c :: cs => SNode.size c + sizeList cs
end

/-- The `TextItem` the indexer builds from a TEXT node at a given path. -/
def itemOfNode (n : SNode) (path : List Nat) : TextItem :=
  ⟨path, n.name, n.characters, n.fontSize, n.fontName, n.textStyleId⟩

/-- The mutable-node view of a TEXT node kept in the indexer's parallel
`nodes` array, which the Applier later writes through. -/
def targetNodeOfNode (n : SNode) : TargetNode :=
  ⟨n.name, n.characters, n.locked, n.writeFails⟩

/-- An entry of the explicit traversal stack of `indexTextNodes`. -/
structure StackEntry where
  node : SNode
  path : List Nat
  depth : Nat

/-- Accumulated traversal output of `indexTextNodes`. -/
structure IndexAcc where
  items : List TextItem
  nodes : List TargetNode
  layerNames : List String
  maxDepth : Nat
  nodeCount : Nat

/-- The stack entries for a node's children, starting at sibling index `i`:
child `i` gets the parent path with `i` appended.  In the source the children
are pushed in reverse order so the pop sequence is the natural left-to-right
order; with the stack's top at the head of the list, that pop sequence is
exactly this list prepended. -/
def childEntriesFrom (path : List Nat) (depth : Nat) : List SNode → Nat → List StackEntry
  | [], _ => []
  | c :: rest, i => ⟨c, path ++ [i], depth + 1⟩ :: childEntriesFrom path depth rest (i + 1)

def childEntries (cs : List SNode) (path : List Nat) (depth : Nat) : List StackEntry :=
  childEntriesFrom path depth cs 0

/-- Visiting one popped node: count it, track the depth, and record a
`TextItem` when it is a TEXT node. -/
def visit (e : StackEntry) (acc : IndexAcc) : IndexAcc :=
  let acc1 := { acc with nodeCount := acc.nodeCount + 1,
                         maxDepth := max acc.maxDepth e.depth }
  if e.node.isText then
    { acc1 with items := acc1.items ++ [itemOfNode e.node e.path],
                nodes := acc1.nodes ++ [targetNodeOfNode e.node],
                layerNames := acc1.layerNames ++ [e.node.name] }
  else acc1

def stackSize (st : List StackEntry) : Nat :=
  (st.map (fun e => e.node.size)).sum

theorem stackSize_append (a b : List StackEntry) :
    stackSize (a ++ b) = stackSize a + stackSize b := by
  simp [stackSize]

/-- The explicit-stack depth-first loop of `indexTextNodes`: pop the head
entry, visit it, and push its child entries (natural order at the head). -/
def idxLoop : List StackEntry → IndexAcc → IndexAcc
  | [], acc => acc
  | e :: rest, acc =>
    idxLoop (childEntries e.node.children e.path e.depth ++ rest) (visit e acc)
termination_by st _ => stackSize st
decreasing_by
  have h1 : ∀ (a b : List StackEntry), stackSize (a ++ b) = stackSize a + stackSize b := by
    intro a b; simp [stackSize]
  have h2 : ∀ (cs : List SNode) (p : List Nat) (d i : Nat),
      stackSize (childEntriesFrom p d cs i) = sizeList cs := by
    intro cs p d i
    induction cs generalizing i with
    | nil => simp [stackSize, childEntriesFrom, sizeList]
    | cons c rest2 ih =>
      simp only [childEntriesFrom, stackSize, List.map_cons, List.sum_cons, sizeList] at *
      rw [ih]
  rw [h1, childEntries, h2]
  simp only [stackSize, List.map_cons, List.sum_cons]
  cases e.node
  simp only [SNode.size, SNode.children]
  omega

/-- Aggregate structural stats returned by the indexer (reporting only). -/
structure FrameStructure where
  nodeCount : Nat
  textNodeCount : Nat
  maxDepth : Nat
  layerNames : List String

/-- The indexer's return value: the leaf items, the parallel mutable-node
array, and the structural stats. -/
structure IndexResult where
  items : List TextItem
  nodes : List TargetNode
  struct : FrameStructure

/-- Function `indexTextNodes`: the explicit-stack traversal, seeded with the subtree
root at path `[]` and depth `0`. -/
def indexTextNodes (frameNode : SNode) : IndexResult :=
  let acc := idxLoop [⟨frameNode, [], 0⟩] ⟨[], [], [], 0, 0⟩
  ⟨acc.items, acc.nodes, ⟨acc.nodeCount, acc.items.length, acc.maxDepth, acc.layerNames⟩⟩

mutual
/-- Modelled from the spec: the natural left-to-right depth-first listing of
the text-bearing leaves of a subtree, each child visited under its parent's
path extended with its zero-based sibling index.  This is the reference
traversal the indexer is compared against (spec §4.1). -/
def specDfsItems : SNode → List Nat → List TextItem
  | .mk isText nm chars fs fn ts lk wf cs, p =>
    (if isText then [itemOfNode (.mk isText nm chars fs fn ts lk wf cs) p] else []) ++
      specDfsList cs p 0
def specDfsList : List SNode → List Nat → Nat → List TextItem
  | [], _, _ => []
  | c :: cs, p, i => specDfsItems c (p ++ [i]) ++ specDfsList cs p (i + 1)
end

mutual
/-- Modelled from the spec: the number of text-bearing nodes of a subtree
(spec §8: the indexer's leaf count must equal it). -/
def specTextCount : SNode → Nat
  | .mk isText _ _ _ _ _ _ _ cs =>
    (if isText then 1 else 0) + specTextCountList cs
def specTextCountList : List SNode → Nat
  | [] => 0
  | c :: cs => specTextCount c + specTextCountList cs
end

/-- The retained copy payload (interface `CopyPayload`). -/
structure CopyPayload where
  sourceFrameId : String
  sourceFrameName : String
  capturedAt : Nat
  items : List TextItem
  frameStructure : FrameStructure

/-- The serializable leaf record stored in the payload store (interface
`SerializableTextItem`): the font name is flattened to two strings. -/
structure SerializableTextItem where
  path : List Nat
  name : String
  characters : String
  fontSize : Option Int
  fontFamily : Option String
  fontStyle : Option String
  textStyleId : Option String

/-- The serializable payload stored in the payload store. -/
structure SerializableCopyPayload where
  sourceFrameId : String
  sourceFrameName : String
  capturedAt : Nat
  items : List SerializableTextItem
  frameStructure : FrameStructure

def serializeTextItem (item : TextItem) : SerializableTextItem :=
  ⟨item.path, item.name, item.characters, item.fontSize,
    item.fontName.map (fun f => f.family), item.fontName.map (fun f => f.style),
    item.textStyleId⟩

/-- Function `deserializeTextItem`: the font name is rebuilt only when both stored
strings are truthy (`fontFamily && fontStyle` in the source). -/
def deserializeTextItem (item : SerializableTextItem) : TextItem :=
  ⟨item.path, item.name, item.characters, item.fontSize,
    (match item.fontFamily, item.fontStyle with
     | some fam, some sty =>
       if fam ≠ "" ∧ sty ≠ "" then some ⟨fam, sty⟩ else none
     | _, _ => none),
    item.textStyleId⟩

def serializePayload (payload : CopyPayload) : SerializableCopyPayload :=
  ⟨payload.sourceFrameId, payload.sourceFrameName, payload.capturedAt,
    payload.items.map serializeTextItem, payload.frameStructure⟩

def deserializePayload (sp : SerializableCopyPayload) : CopyPayload :=
  ⟨sp.sourceFrameId, sp.sourceFrameName, sp.capturedAt,
    sp.items.map deserializeTextItem, sp.frameStructure⟩

/-- The plugin's payload-bearing state: the in-memory `copyPayload` global
and the value the payload store holds under the `"copyPayload"` key. -/
structure PluginState where
  copyPayload : Option CopyPayload
  store : Option SerializableCopyPayload

/-- Function `handleClear`: resets both the in-memory payload and the payload store. -/
def handleClear (_st : PluginState) : PluginState := ⟨none, none⟩

/-- The fatal no-payload error message raised by `handlePaste`. -/
def noPayloadMessage : String := "No text copied. Please copy text from a frame first."

/-- Function `handlePaste` on an already-validated target frame: take the in-memory
payload, fall back to the deserialized stored payload, raise the fatal
no-payload error when neither exists, and otherwise index the target frame
and run the transfer. -/
def handlePaste (st : PluginState) (targetFrame : SNode) : Except String MapResult :=
  let payload :=
    match st.copyPayload with
    | some p => some p
    | none =>
      match st.store with
      | some sp => some (deserializePayload sp)
      | none => none
  match payload with
  | none => Except.error noPayloadMessage
  | some p =>
    let idx := indexTextNodes targetFrame
    Except.ok (mapTextNodes p.items idx.items idx.nodes)

/-- The target frame's leaf nodes after a paste attempt: the transferred-to
nodes on success, the untouched indexed nodes when the paste raised an
error. -/
def pasteFinalNodes (st : PluginState) (targetFrame : SNode) : List TargetNode :=
  match handlePaste st targetFrame with
  | .ok r => r.nodes
  | .error _ => (indexTextNodes targetFrame).nodes

/-! Analysis-layer definitions: views of the loop output used to state the
claims, and the rational-valued decomposition of the score used in the
dominance arguments. -/

/-- The target indices of the successfully written pairs, in report order. -/
def writtenTargets (ds : List Detail) : List Nat :=
  ds.filterMap (fun d => match d with | .mappedOk _ t _ => some t | _ => none)

/-- Report lines whose reason is `no-candidate` or `all-candidates-claimed`. -/
def isShortfallTag : Detail → Bool
  | .noCandidate _ => true
  | .allClaimed _ => true
  | _ => false

def shortfallCount (ds : List Detail) : Nat :=
  (ds.filter isShortfallTag).length

/-- The progress percentages the claim C4 family talks about: one
notification per successfully mapped pair, computed from that pair's loop
index. -/
def progressEvents (total : Nat) (ds : List Detail) : List Nat :=
  ds.filterMap (fun d =>
    match d with
    | .mappedOk i _ _ => some (jsRound (100 * (i + 1)) total)
    | _ => none)

/-- Rational value of the exact-path signal. -/
def pathPart (s t : TextItem) : ℚ := if s.path = t.path then 1000 else 0

/-- Rational value of the name signal. -/
def namePart (s t : TextItem) : ℚ := if s.name ≠ "" ∧ s.name = t.name then 500 else 0

/-- Rational value of the font family/size signal. -/
def fontPart (s t : TextItem) : ℚ :=
  match s.fontName, t.fontName with
  | some sf, some tf =>
    if optIntTruthy s.fontSize ∧ optIntTruthy t.fontSize then
      if sf.family = tf.family then
        if s.fontSize = t.fontSize then 300 else 200
      else 0
    else 0
  | _, _ => 0

/-- Rational value of the text-style signal. -/
def stylePart (s t : TextItem) : ℚ :=
  if optStrTruthy s.textStyleId = true ∧ s.textStyleId = t.textStyleId then 300 else 0

/-- Rational value of the lexical-overlap signal. -/
def lexPart (s t : TextItem) : ℚ :=
  if 10 < s.characters.length ∧ 10 < t.characters.length then
    10 * (lexCommonCount s t : ℚ)
  else 0

/-- Rational value of the path-similarity signal (unscaled). -/
def simPart (s t : TextItem) : ℚ := (calculatePathSimilarity s.path t.path).toRat

end MoveText

/-! ## Theorems -/

namespace MoveText

theorem Q.toRat_ofInt (n : Int) : (Q.ofInt n).toRat = (n : ℚ) := by
  simp [Q.toRat, Q.ofInt]

theorem Q.den_ne_zero (a : Q) : (a.den : ℚ) ≠ 0 := by
  have h := a.dpos
  exact_mod_cast Nat.pos_iff_ne_zero.mp h

theorem Q.den_cast_pos (a : Q) : (0 : ℚ) < (a.den : ℚ) := by
  exact_mod_cast a.dpos

theorem Q.toRat_add (a b : Q) : (a.add b).toRat = a.toRat + b.toRat := by
  simp only [Q.toRat, Q.add]
  rw [div_add_div _ _ a.den_ne_zero b.den_ne_zero]
  push_cast
  ring_nf

theorem Q.toRat_mul (a b : Q) : (a.mul b).toRat = a.toRat * b.toRat := by
  simp only [Q.toRat, Q.mul]
  rw [div_mul_div_comm]
  push_cast
  ring_nf

theorem Q.le_iff (a b : Q) : Q.le a b ↔ a.toRat ≤ b.toRat := by
  simp only [Q.toRat, Q.le]
  rw [div_le_div_iff₀ a.den_cast_pos b.den_cast_pos]
  constructor <;> intro h <;> exact_mod_cast h

theorem Q.lt_iff (a b : Q) : Q.lt a b ↔ a.toRat < b.toRat := by
  simp only [Q.toRat, Q.lt]
  rw [div_lt_div_iff₀ a.den_cast_pos b.den_cast_pos]
  constructor <;> intro h <;> exact_mod_cast h

theorem commonLeadLen_le_left (p q : List Nat) : commonLeadLen p q ≤ p.length := by
  induction p generalizing q with
  | nil => simp [commonLeadLen]
  | cons a as ih =>
    cases q with
    | nil => simp [commonLeadLen]
    | cons b bs =>
      simp only [commonLeadLen, List.length_cons]
      split
      · have := ih bs; omega
      · omega

theorem commonLeadLen_self (p : List Nat) : commonLeadLen p p = p.length := by
  induction p with
  | nil => simp [commonLeadLen]
  | cons a as ih => simp [commonLeadLen, ih]; omega

theorem simPart_nonneg (s t : TextItem) : 0 ≤ simPart s t := by
  simp only [simPart, calculatePathSimilarity]
  split
  · simp [Q.toRat_ofInt]
  · simp only [Q.toRat]
    positivity

theorem simPart_le_one (s t : TextItem) : simPart s t ≤ 1 := by
  simp only [simPart, calculatePathSimilarity]
  split
  · simp [Q.toRat_ofInt]
  · rename_i hc
    have hm : 0 < max s.path.length t.path.length := by
      rcases Nat.eq_zero_or_pos s.path.length with h | h
      · exact absurd (Or.inl h) hc
      · omega
    simp only [Q.toRat]
    rw [div_le_one (by exact_mod_cast hm)]
    exact_mod_cast le_trans (commonLeadLen_le_left _ _) (le_max_left _ _)

theorem simPart_self (s : TextItem) (h : s.path ≠ []) : simPart s s = 1 := by
  simp only [simPart, calculatePathSimilarity]
  split
  · rename_i hc
    rcases hc with hc | hc <;> exact absurd (List.length_eq_zero.mp hc) h
  · simp only [Q.toRat, commonLeadLen_self, max_self]
    push_cast
    rw [div_self]
    have hz : s.path.length ≠ 0 := fun hc => h (List.length_eq_zero.mp hc)
    exact_mod_cast hz

theorem simPart_of_empty (s t : TextItem) (h : s.path = []) : simPart s t = 0 := by
  simp [simPart, calculatePathSimilarity, h, Q.toRat_ofInt]

theorem toRat_if_add (c : Prop) [Decidable c] (x : Q) (v : Int) :
    (if c then x.add (Q.ofInt v) else x).toRat = x.toRat + (if c then (v : ℚ) else 0) := by
  split <;> simp [Q.toRat_add, Q.toRat_ofInt]

theorem toRat_font_step (s t : TextItem) (x : Q) :
    (match s.fontName, t.fontName with
     | some sf, some tf =>
       if optIntTruthy s.fontSize ∧ optIntTruthy t.fontSize then
         if sf.family = tf.family then
           if s.fontSize = t.fontSize then (x.add (Q.ofInt 200)).add (Q.ofInt 100)
           else x.add (Q.ofInt 200)
         else x
       else x
     | _, _ => x).toRat = x.toRat + fontPart s t := by
  rcases hf : s.fontName with _ | sf <;> rcases hg : t.fontName with _ | tf <;>
    simp only [fontPart, hf, hg]
  · simp
  · simp
  · simp
  · split_ifs <;> simp [Q.toRat_add, Q.toRat_ofInt] <;> ring

theorem candScore_toRat (s t : TextItem) :
    (candScore s t).toRat =
      pathPart s t + namePart s t + fontPart s t + stylePart s t + lexPart s t
        + simPart s t * 50 := by
  simp only [candScore]
  rw [Q.toRat_add, Q.toRat_mul, Q.toRat_ofInt, toRat_if_add, toRat_if_add,
    toRat_font_step, toRat_if_add, toRat_if_add, Q.toRat_ofInt]
  simp only [pathPart, namePart, stylePart, lexPart, simPart]
  push_cast
  ring

/-! Loop bookkeeping lemmas. -/

theorem step_mapped_add_skipped (total i : Nat) (src : TextItem) (scores : List Cand)
    (st : LoopState) :
    (step total i src scores st).mapped + (step total i src scores st).skipped
      = st.mapped + st.skipped + 1 := by
  unfold step
  split
  · dsimp only
    omega
  · split
    · dsimp only
      omega
    · dsimp only
      split_ifs <;> dsimp only <;> omega

theorem matrixRows_length (tgt : List TextItem) (u : List Nat) :
    ∀ (ss : List TextItem) (i : Nat), (matrixRows tgt u ss i).length = ss.length := by
  intro ss
  induction ss with
  | nil => intro i; simp [matrixRows]
  | cons s rest ih => intro i; simp [matrixRows, ih]

theorem createScoringMatrix_length (src tgt : List TextItem) (u : List Nat) :
    (createScoringMatrix src tgt u).length = src.length :=
  matrixRows_length tgt u src 0

theorem runLoop_mapped_add_skipped (total : Nat) :
    ∀ (rows : List (TextItem × List Cand)) (i : Nat) (st : LoopState),
      (runLoop total i rows st).mapped + (runLoop total i rows st).skipped
        = st.mapped + st.skipped + rows.length := by
  intro rows
  induction rows with
  | nil => intro i st; simp [runLoop]
  | cons p rest ih =>
    intro i st
    rcases p with ⟨src, scores⟩
    rw [runLoop, ih, step_mapped_add_skipped]
    simp only [List.length_cons]
    omega

/-- C9: every call to `mapTextNodes` accounts for each source leaf exactly
once: the returned `mapped` and `skipped` counters sum to the number of
source items. -/
theorem mapTextNodes_mapped_add_skipped (src tgt : List TextItem)
    (nodes : List TargetNode) :
    (mapTextNodes src tgt nodes).mapped + (mapTextNodes src tgt nodes).skipped
      = src.length := by
  unfold mapTextNodes
  simp only [runLoop_mapped_add_skipped, initState, List.length_zip,
    createScoringMatrix_length, min_self]
  omega

/-! Sort and row-membership lemmas. -/

theorem mem_insertDesc (c x : Cand) (l : List Cand) :
    x ∈ insertDesc c l ↔ x = c ∨ x ∈ l := by
  induction l with
  | nil => simp [insertDesc]
  | cons d ds ih =>
    simp only [insertDesc]
    split
    · simp
    · simp only [List.mem_cons, ih]
      tauto

theorem mem_sortByScoreDesc (x : Cand) (l : List Cand) :
    x ∈ sortByScoreDesc l ↔ x ∈ l := by
  induction l with
  | nil => simp [sortByScoreDesc]
  | cons c cs ih => simp [sortByScoreDesc, mem_insertDesc, ih]

theorem le_trans_q {a b c : Q} (h1 : Q.le a b) (h2 : Q.le b c) : Q.le a c := by
  rw [Q.le_iff] at *
  exact le_trans h1 h2

/-- Sortedness predicate: descending scores along the list. -/
def ScoresDesc (l : List Cand) : Prop :=
  l.Pairwise (fun a b => Q.le b.score a.score)

theorem scoresDesc_insertDesc (c : Cand) (l : List Cand) (h : ScoresDesc l) :
    ScoresDesc (insertDesc c l) := by
  induction l with
  | nil => simp [insertDesc, ScoresDesc]
  | cons d ds ih =>
    simp only [insertDesc]
    rcases List.pairwise_cons.mp h with ⟨hd, hds⟩
    split
    · rename_i hle
      refine List.pairwise_cons.mpr ⟨?_, h⟩
      intro x hx
      rcases List.mem_cons.mp hx with rfl | hx
      · exact hle
      · exact le_trans_q (hd x hx) hle
    · rename_i hgt
      refine List.pairwise_cons.mpr ⟨?_, ih hds⟩
      intro x hx
      rcases (mem_insertDesc c x ds).mp hx with rfl | hx
      · rw [Q.le_iff]
        rw [Q.le_iff] at hgt
        exact le_of_not_le hgt
      · exact hd x hx

theorem scoresDesc_sortByScoreDesc (l : List Cand) : ScoresDesc (sortByScoreDesc l) := by
  induction l with
  | nil => simp [sortByScoreDesc, ScoresDesc]
  | cons c cs ih => exact scoresDesc_insertDesc c _ ih

theorem mem_rowCandsFrom (s : TextItem) (u : List Nat) (si : Nat) :
    ∀ (ts : List TextItem) (j : Nat) (c : Cand),
      c ∈ rowCandsFrom s u si ts j ↔
        ∃ k, ∃ h : k < ts.length,
          c = ⟨si, j + k, candScore s (ts.get ⟨k, h⟩)⟩ ∧ (j + k) ∉ u ∧
            Q.lt (Q.ofInt 0) (candScore s (ts.get ⟨k, h⟩)) := by
  intro ts
  induction ts with
  | nil => intro j c; simp [rowCandsFrom]
  | cons t rest ih =>
    intro j c
    simp only [rowCandsFrom, List.mem_append, ih]
    constructor
    · intro h
      rcases h with h | ⟨k, hk, hc, hu, hpos⟩
      · split at h
        · simp at h
        · split at h
          · simp only [List.mem_singleton] at h
            refine ⟨0, by simp, ?_, ?_, ?_⟩
            · simpa using h
            · simpa using by assumption
            · simpa using by assumption
          · simp at h
      · exact ⟨k + 1, by simpa using hk, by simpa [Nat.add_assoc, Nat.add_comm 1 k] using hc,
          by simpa [Nat.add_assoc, Nat.add_comm 1 k] using hu,
          by simpa using hpos⟩
    · intro h
      rcases h with ⟨k, hk, hc, hu, hpos⟩
      cases k with
      | zero =>
        left
        simp only [Nat.add_zero] at hc hu
        simp only [List.length_cons] at hk
        have : (List.get (t :: rest) ⟨0, hk⟩) = t := rfl
        rw [this] at hc hpos
        rw [if_neg hu, if_pos hpos]
        simp [hc]
      | succ k' =>
        right
        simp only [List.length_cons] at hk
        refine ⟨k', by omega, ?_, ?_, ?_⟩
        · simpa [Nat.add_assoc, Nat.add_comm 1 k'] using hc
        · simpa [Nat.add_assoc, Nat.add_comm 1 k'] using hu
        · simpa using hpos

theorem mem_matrixRows (tgt : List TextItem) (u : List Nat) :
    ∀ (ss : List TextItem) (i : Nat) (row : List Cand),
      row ∈ matrixRows tgt u ss i → ∃ k s, ss.get? k = some s ∧ row = rowScores tgt u (i + k) s := by
  intro ss
  induction ss with
  | nil => intro i row h; simp [matrixRows] at h
  | cons s rest ih =>
    intro i row h
    simp only [matrixRows, List.mem_cons] at h
    rcases h with rfl | h
    · exact ⟨0, s, rfl, by simp⟩
    · rcases ih (i + 1) row h with ⟨k, s', hget, hrow⟩
      exact ⟨k + 1, s', by simpa using hget, by simpa [Nat.add_assoc, Nat.add_comm 1 k] using hrow⟩

/-- Every candidate in a matrix row targets a valid target index. -/
theorem row_target_lt (src tgt : List TextItem) (row : List Cand) (c : Cand)
    (hrow : row ∈ createScoringMatrix src tgt []) (hc : c ∈ row) :
    c.targetIndex < tgt.length := by
  rcases mem_matrixRows tgt [] src 0 row hrow with ⟨k, s, hget, rfl⟩
  rw [rowScores, mem_sortByScoreDesc, mem_rowCandsFrom] at hc
  rcases hc with ⟨k', hk', rfl, _, _⟩
  simpa using hk'

/-! Report bookkeeping lemmas. -/

@[simp] theorem writtenTargets_nil : writtenTargets [] = [] := rfl

@[simp] theorem writtenTargets_append (a b : List Detail) :
    writtenTargets (a ++ b) = writtenTargets a ++ writtenTargets b := by
  simp [writtenTargets]

@[simp] theorem writtenTargets_noCandidate (i : Nat) :
    writtenTargets [.noCandidate i] = [] := rfl

@[simp] theorem writtenTargets_allClaimed (i : Nat) :
    writtenTargets [.allClaimed i] = [] := rfl

@[simp] theorem writtenTargets_targetLocked (i j : Nat) :
    writtenTargets [.targetLocked i j] = [] := rfl

@[simp] theorem writtenTargets_writeFailed (i j : Nat) :
    writtenTargets [.writeFailed i j] = [] := rfl

@[simp] theorem writtenTargets_mappedOk (i j : Nat) (sc : Q) :
    writtenTargets [.mappedOk i j sc] = [j] := rfl

theorem find?_unclaimed_spec {scores : List Cand} {used : List Nat} {c : Cand}
    (h : scores.find? (fun x => !(used.contains x.targetIndex)) = some c) :
    c ∈ scores ∧ c.targetIndex ∉ used := by
  refine ⟨List.mem_of_find?_eq_some h, ?_⟩
  have := List.find?_some h
  simpa using this

theorem step_inv_written (total i : Nat) (src : TextItem) (scores : List Cand)
    (st : LoopState)
    (h1 : writtenTargets st.details ⊆ st.used)
    (h2 : (writtenTargets st.details).Nodup)
    (h3 : st.mapped = (writtenTargets st.details).length) :
    writtenTargets (step total i src scores st).details ⊆ (step total i src scores st).used ∧
      (writtenTargets (step total i src scores st).details).Nodup ∧
      (step total i src scores st).mapped
        = (writtenTargets (step total i src scores st).details).length := by
  unfold step
  split
  · dsimp only
    simpa using ⟨h1, h2, h3⟩
  · split
    · dsimp only
      simpa using ⟨h1, h2, h3⟩
    · rename_i c hf
      have hc := find?_unclaimed_spec hf
      dsimp only
      split_ifs
      · dsimp only
        simpa using ⟨h1, h2, h3⟩
      · dsimp only
        simpa using ⟨h1, h2, h3⟩
      · dsimp only
        refine ⟨?_, ?_, ?_⟩
        · simp only [writtenTargets_append, writtenTargets_mappedOk]
          intro x hx
          rcases List.mem_append.mp hx with hx | hx
          · exact List.mem_cons_of_mem _ (h1 hx)
          · simp only [List.mem_singleton] at hx
            subst hx
            exact List.mem_cons_self _ _
        · simp only [writtenTargets_append, writtenTargets_mappedOk]
          rw [List.nodup_append]
          refine ⟨h2, List.nodup_singleton _, ?_⟩
          intro x hx
          simp only [List.mem_singleton]
          intro hxc
          subst hxc
          exact hc.2 (h1 hx)
        · simp [h3]

theorem runLoop_inv_written (total : Nat) :
    ∀ (rows : List (TextItem × List Cand)) (i : Nat) (st : LoopState),
      writtenTargets st.details ⊆ st.used →
      (writtenTargets st.details).Nodup →
      st.mapped = (writtenTargets st.details).length →
      writtenTargets (runLoop total i rows st).details ⊆ (runLoop total i rows st).used ∧
        (writtenTargets (runLoop total i rows st).details).Nodup ∧
        (runLoop total i rows st).mapped
          = (writtenTargets (runLoop total i rows st).details).length := by
  intro rows
  induction rows with
  | nil => intro i st h1 h2 h3; exact ⟨h1, h2, h3⟩
  | cons p rest ih =>
    intro i st h1 h2 h3
    rcases p with ⟨src, scores⟩
    rw [runLoop]
    rcases step_inv_written total i src scores st h1 h2 h3 with ⟨g1, g2, g3⟩
    exact ih (i + 1) _ g1 g2 g3

/-- C3: the resulting assignment is injective on target indices — no two
report lines record a successful write into the same target index. -/
theorem mapTextNodes_injective_targets (src tgt : List TextItem)
    (nodes : List TargetNode) :
    (writtenTargets (mapTextNodes src tgt nodes).details).Nodup := by
  unfold mapTextNodes
  dsimp only
  exact (runLoop_inv_written _ _ 0 (initState nodes) (by simp [initState])
    (by simp [initState]) (by simp [initState])).2.1

/-! Progress bookkeeping. -/

@[simp] theorem progressEvents_nil (total : Nat) : progressEvents total [] = [] := rfl

@[simp] theorem progressEvents_append (total : Nat) (a b : List Detail) :
    progressEvents total (a ++ b) = progressEvents total a ++ progressEvents total b := by
  simp [progressEvents]

theorem step_inv_progress (total i : Nat) (src : TextItem) (scores : List Cand)
    (st : LoopState) (h : st.progress = progressEvents total st.details) :
    (step total i src scores st).progress
      = progressEvents total (step total i src scores st).details := by
  unfold step
  split
  · dsimp only
    simp [progressEvents, h]
  · split
    · dsimp only
      simp [progressEvents, h]
    · dsimp only
      split_ifs
      · dsimp only
        simp [progressEvents, h]
      · dsimp only
        simp [progressEvents, h]
      · dsimp only
        simp [progressEvents, h]

theorem runLoop_inv_progress (total : Nat) :
    ∀ (rows : List (TextItem × List Cand)) (i : Nat) (st : LoopState),
      st.progress = progressEvents total st.details →
      (runLoop total i rows st).progress
        = progressEvents total (runLoop total i rows st).details := by
  intro rows
  induction rows with
  | nil => intro i st h; exact h
  | cons p rest ih =>
    intro i st h
    rcases p with ⟨src, scores⟩
    rw [runLoop]
    exact ih (i + 1) _ (step_inv_progress total i src scores st h)

/-- C4 (amended): the progress sink is notified exactly once per successfully
transferred pair, with `round((i+1)/total*100)` computed from that pair's
loop index `i` and `total` = number of source items; skipped pairs produce no
notification. -/
theorem mapTextNodes_progress (src tgt : List TextItem) (nodes : List TargetNode) :
    (mapTextNodes src tgt nodes).progress
      = progressEvents src.length (mapTextNodes src tgt nodes).details := by
  unfold mapTextNodes
  dsimp only
  rw [createScoringMatrix_length]
  exact runLoop_inv_progress _ _ 0 (initState nodes) (by simp [initState])

/-- C4 (counterexample): a pair that is processed but skipped — here the
single source leaf selects a locked target — produces no progress
notification at all, although the claim requires one after every processed
pair (`round(1/1*100) = 100`). -/
theorem progress_not_after_skipped_pair :
    (mapTextNodes [⟨[0], "", "a", none, none, none⟩] [⟨[0], "", "b", none, none, none⟩]
        [⟨"", "b", true, false⟩]).skipped = 1 ∧
      (mapTextNodes [⟨[0], "", "a", none, none, none⟩] [⟨[0], "", "b", none, none, none⟩]
        [⟨"", "b", true, false⟩]).progress = [] ∧
      jsRound (100 * (0 + 1)) 1 = 100 := by
  decide

/-! Node-flag preservation. -/

theorem get?_set' {α : Type} (l : List α) :
    ∀ (i j : Nat) (a : α),
      (l.set i a).get? j = if i = j ∧ i < l.length then some a else l.get? j := by
  induction l with
  | nil => intro i j a; simp
  | cons x xs ih =>
    intro i j a
    cases i with
    | zero =>
      cases j with
      | zero => simp
      | succ j' => simp
    | succ i' =>
      cases j with
      | zero => simp
      | succ j' =>
        have hs : ((x :: xs).set (i' + 1) a) = x :: xs.set i' a := rfl
        rw [hs, List.get?_cons_succ, List.get?_cons_succ, ih, List.length_cons]
        by_cases h : i' = j' ∧ i' < xs.length
        · rw [if_pos h, if_pos ⟨by omega, by omega⟩]
        · rw [if_neg h, if_neg (by omega)]

theorem getD_nodes_eq (l : List TargetNode) (j : Nat) :
    l.getD j defaultNode = (l.get? j).getD defaultNode := by
  simp [List.getD_eq_getD_get?]

theorem step_flags (total i : Nat) (src : TextItem) (scores : List Cand)
    (st : LoopState) (j : Nat) :
    (((step total i src scores st).nodes.getD j defaultNode).locked
        = (st.nodes.getD j defaultNode).locked) ∧
      (((step total i src scores st).nodes.getD j defaultNode).writeFails
        = (st.nodes.getD j defaultNode).writeFails) := by
  unfold step
  split
  · exact ⟨rfl, rfl⟩
  · split
    · exact ⟨rfl, rfl⟩
    · rename_i c hf
      dsimp only
      split_ifs
      · exact ⟨rfl, rfl⟩
      · exact ⟨rfl, rfl⟩
      · dsimp only
        rw [getD_nodes_eq, get?_set', getD_nodes_eq]
        by_cases h : c.targetIndex = j ∧ c.targetIndex < st.nodes.length
        · rw [if_pos h]
          rcases h with ⟨rfl, hlt⟩
          exact ⟨rfl, rfl⟩
        · rw [if_neg h]
          exact ⟨rfl, rfl⟩

theorem runLoop_flags (total : Nat) :
    ∀ (rows : List (TextItem × List Cand)) (i : Nat) (st : LoopState) (j : Nat),
      (((runLoop total i rows st).nodes.getD j defaultNode).locked
          = (st.nodes.getD j defaultNode).locked) ∧
        (((runLoop total i rows st).nodes.getD j defaultNode).writeFails
          = (st.nodes.getD j defaultNode).writeFails) := by
  intro rows
  induction rows with
  | nil => intro i st j; exact ⟨rfl, rfl⟩
  | cons p rest ih =>
    intro i st j
    rcases p with ⟨src, scores⟩
    rw [runLoop]
    rcases ih (i + 1) (step total i src scores st) j with ⟨g1, g2⟩
    rcases step_flags total i src scores st j with ⟨f1, f2⟩
    exact ⟨g1.trans f1, g2.trans f2⟩

theorem step_inv_locked (total i : Nat) (src : TextItem) (scores : List Cand)
    (st : LoopState) (orig : List TargetNode)
    (hfl : ∀ j, ((st.nodes.getD j defaultNode).locked = (orig.getD j defaultNode).locked))
    (h1 : ∀ j, (orig.getD j defaultNode).locked = true →
      st.nodes.getD j defaultNode = orig.getD j defaultNode)
    (h2 : ∀ i' j, Detail.targetLocked i' j ∈ st.details →
      (orig.getD j defaultNode).locked = true) :
    (∀ j, (orig.getD j defaultNode).locked = true →
        (step total i src scores st).nodes.getD j defaultNode = orig.getD j defaultNode) ∧
      (∀ i' j, Detail.targetLocked i' j ∈ (step total i src scores st).details →
        (orig.getD j defaultNode).locked = true) := by
  unfold step
  split
  · dsimp only
    refine ⟨h1, ?_⟩
    intro i' j hmem
    simp only [List.mem_append, List.mem_singleton] at hmem
    rcases hmem with hmem | hmem
    · exact h2 i' j hmem
    · cases hmem
  · split
    · dsimp only
      refine ⟨h1, ?_⟩
      intro i' j hmem
      simp only [List.mem_append, List.mem_singleton] at hmem
      rcases hmem with hmem | hmem
      · exact h2 i' j hmem
      · cases hmem
    · rename_i c hf
      dsimp only
      split_ifs
      · rename_i hlock
        refine ⟨h1, ?_⟩
        intro i' j hmem
        simp only [List.mem_append, List.mem_singleton] at hmem
        rcases hmem with hmem | hmem
        · exact h2 i' j hmem
        · cases hmem
          rw [← hfl]
          exact hlock
      · refine ⟨h1, ?_⟩
        intro i' j hmem
        simp only [List.mem_append, List.mem_singleton] at hmem
        rcases hmem with hmem | hmem
        · exact h2 i' j hmem
        · cases hmem
      · rename_i hlock hwf
        dsimp only
        constructor
        · intro j hj
          rw [getD_nodes_eq, get?_set']
          have hne : ¬(c.targetIndex = j ∧ c.targetIndex < st.nodes.length) := by
            rintro ⟨rfl, _⟩
            rw [← hfl] at hj
            exact hlock hj
          rw [if_neg hne, ← getD_nodes_eq]
          exact h1 j hj
        · intro i' j hmem
          simp only [List.mem_append, List.mem_singleton] at hmem
          rcases hmem with hmem | hmem
          · exact h2 i' j hmem
          · cases hmem

theorem runLoop_inv_locked (total : Nat) (orig : List TargetNode) :
    ∀ (rows : List (TextItem × List Cand)) (i : Nat) (st : LoopState),
      (∀ j, ((st.nodes.getD j defaultNode).locked = (orig.getD j defaultNode).locked)) →
      (∀ j, (orig.getD j defaultNode).locked = true →
        st.nodes.getD j defaultNode = orig.getD j defaultNode) →
      (∀ i' j, Detail.targetLocked i' j ∈ st.details →
        (orig.getD j defaultNode).locked = true) →
      (∀ j, (orig.getD j defaultNode).locked = true →
          (runLoop total i rows st).nodes.getD j defaultNode = orig.getD j defaultNode) ∧
        (∀ i' j, Detail.targetLocked i' j ∈ (runLoop total i rows st).details →
          (orig.getD j defaultNode).locked = true) := by
  intro rows
  induction rows with
  | nil => intro i st hfl h1 h2; exact ⟨h1, h2⟩
  | cons p rest ih =>
    intro i st hfl h1 h2
    rcases p with ⟨src, scores⟩
    rw [runLoop]
    rcases step_inv_locked total i src scores st orig hfl h1 h2 with ⟨g1, g2⟩
    refine ih (i + 1) _ ?_ g1 g2
    intro j
    rw [(step_flags total i src scores st j).1]
    exact hfl j

/-- C5 (amended): a locked target leaf is never mutated by the transfer —
its node is unchanged in the result — and every `target-locked` report line
refers to a target leaf that is indeed locked.  (A locked leaf that no source
leaf selects produces no report line.) -/
theorem locked_targets_untouched (src tgt : List TextItem) (nodes : List TargetNode) :
    (∀ j, (nodes.getD j defaultNode).locked = true →
        (mapTextNodes src tgt nodes).nodes.getD j defaultNode = nodes.getD j defaultNode) ∧
      (∀ i j, Detail.targetLocked i j ∈ (mapTextNodes src tgt nodes).details →
        (nodes.getD j defaultNode).locked = true) := by
  unfold mapTextNodes
  dsimp only
  exact runLoop_inv_locked _ nodes _ 0 (initState nodes) (fun j => rfl)
    (fun j _ => rfl) (fun i' j h => by simp [initState] at h)

/-- C5 witness: a transfer against a single locked target node leaves it
unchanged. -/
theorem locked_targets_untouched_witness :
    (mapTextNodes [⟨[0], "", "s", none, none, none⟩] [⟨[0], "", "t", none, none, none⟩]
        [⟨"T", "t", true, false⟩]).nodes.getD 0 defaultNode = ⟨"T", "t", true, false⟩ :=
  (locked_targets_untouched [⟨[0], "", "s", none, none, none⟩]
    [⟨[0], "", "t", none, none, none⟩] [⟨"T", "t", true, false⟩]).1 0 (by decide)

/-- C5 (counterexample): a locked target leaf that no source leaf selects is
never reported: here the single source leaf maps to the first (unlocked)
target, and the second target is locked yet the report has no
`target-locked` line for it. -/
theorem locked_target_not_always_reported :
    ((mapTextNodes [⟨[0], "", "s", none, none, none⟩]
        [⟨[0], "", "t", none, none, none⟩, ⟨[1], "", "u", none, none, none⟩]
        [⟨"A", "t", false, false⟩, ⟨"B", "u", true, false⟩]).details
      = [Detail.mappedOk 0 0 ⟨1050, 1, Nat.one_pos⟩]) ∧
      (([⟨"A", "t", false, false⟩, ⟨"B", "u", true, false⟩] :
          List TargetNode).getD 1 defaultNode).locked = true := by
  decide

/-! Shortfall counting (C6). -/

@[simp] theorem shortfallCount_nil : shortfallCount [] = 0 := rfl

@[simp] theorem shortfallCount_append (a b : List Detail) :
    shortfallCount (a ++ b) = shortfallCount a + shortfallCount b := by
  simp [shortfallCount]

theorem step_shortfall (total i : Nat) (src : TextItem) (scores : List Cand)
    (st : LoopState)
    (hfl : ∀ j, (st.nodes.getD j defaultNode).locked = false ∧
      (st.nodes.getD j defaultNode).writeFails = false) :
    shortfallCount (step total i src scores st).details + (step total i src scores st).mapped
      = shortfallCount st.details + st.mapped + 1 := by
  unfold step
  split
  · dsimp only
    simp [shortfallCount, isShortfallTag]
    omega
  · split
    · dsimp only
      simp [shortfallCount, isShortfallTag]
      omega
    · rename_i c hf
      dsimp only
      split_ifs
      · rename_i hlock
        rw [(hfl c.targetIndex).1] at hlock
        cases hlock
      · rename_i hwf
        rw [(hfl c.targetIndex).2] at hwf
        cases hwf
      · dsimp only
        simp [shortfallCount, isShortfallTag]
        omega

theorem runLoop_shortfall (total : Nat) :
    ∀ (rows : List (TextItem × List Cand)) (i : Nat) (st : LoopState),
      (∀ j, (st.nodes.getD j defaultNode).locked = false ∧
        (st.nodes.getD j defaultNode).writeFails = false) →
      shortfallCount (runLoop total i rows st).details + (runLoop total i rows st).mapped
        = shortfallCount st.details + st.mapped + rows.length := by
  intro rows
  induction rows with
  | nil => intro i st hfl; simp [runLoop]
  | cons p rest ih =>
    intro i st hfl
    rcases p with ⟨src, scores⟩
    rw [runLoop]
    have hfl' : ∀ j, ((step total i src scores st).nodes.getD j defaultNode).locked = false ∧
        ((step total i src scores st).nodes.getD j defaultNode).writeFails = false := by
      intro j
      rcases step_flags total i src scores st j with ⟨f1, f2⟩
      rw [f1, f2]
      exact hfl j
    rw [ih (i + 1) _ hfl', step_shortfall total i src scores st hfl]
    simp only [List.length_cons]
    omega

theorem step_used_bound (total i : Nat) (src : TextItem) (scores : List Cand)
    (st : LoopState) (T : Nat)
    (hs : ∀ c ∈ scores, c.targetIndex < T)
    (hu : ∀ x ∈ st.used, x < T) :
    ∀ x ∈ (step total i src scores st).used, x < T := by
  unfold step
  split
  · exact hu
  · split
    · exact hu
    · rename_i c hf
      dsimp only
      split_ifs
      · exact hu
      · exact hu
      · dsimp only
        intro x hx
        rcases List.mem_cons.mp hx with rfl | hx
        · exact hs c (find?_unclaimed_spec hf).1
        · exact hu x hx

theorem runLoop_used_bound (total T : Nat) :
    ∀ (rows : List (TextItem × List Cand)) (i : Nat) (st : LoopState),
      (∀ p ∈ rows, ∀ c ∈ p.2, c.targetIndex < T) →
      (∀ x ∈ st.used, x < T) →
      ∀ x ∈ (runLoop total i rows st).used, x < T := by
  intro rows
  induction rows with
  | nil => intro i st _ hu; exact hu
  | cons p rest ih =>
    intro i st hrows hu
    rcases p with ⟨src, scores⟩
    rw [runLoop]
    refine ih (i + 1) _ (fun q hq => hrows q (List.mem_cons_of_mem _ hq)) ?_
    exact step_used_bound total i src scores st T
      (hrows (src, scores) (List.mem_cons_self _ _)) hu

theorem nodup_bound_length (l : List Nat) (T : Nat) (hn : l.Nodup) (hb : ∀ x ∈ l, x < T) :
    l.length ≤ T := by
  classical
  have hsub : l.toFinset ⊆ Finset.range T := by
    intro x hx
    exact Finset.mem_range.mpr (hb x (List.mem_toFinset.mp hx))
  have hcard := Finset.card_le_card hsub
  rwa [List.toFinset_card_of_nodup hn, Finset.card_range] at hcard

/-- The number of successful writes never exceeds the number of target
leaves. -/
theorem mapTextNodes_mapped_le (src tgt : List TextItem) (nodes : List TargetNode) :
    (mapTextNodes src tgt nodes).mapped ≤ tgt.length := by
  unfold mapTextNodes
  dsimp only
  rcases runLoop_inv_written _ (src.zip (createScoringMatrix src tgt [])) 0
    (initState nodes) (by simp [initState]) (by simp [initState]) (by simp [initState])
    with ⟨hsub, hnodup, hlen⟩
  rw [hlen]
  refine nodup_bound_length _ _ hnodup ?_
  intro x hx
  have hx' := hsub hx
  refine runLoop_used_bound _ tgt.length (src.zip (createScoringMatrix src tgt [])) 0
    (initState nodes) ?_ (by simp [initState]) x hx'
  intro p hp c hc
  exact row_target_lt src tgt p.2 c (List.of_mem_zip hp).2 hc

/-- C6 (amended): when the source has more leaves than the target and no
target node is locked or failing its write, at least
`source_count - target_count` source leaves are reported with reason
`no-candidate` or `all-candidates-claimed` (and hence end unmapped). -/
theorem mapTextNodes_shortfall (src tgt : List TextItem) (nodes : List TargetNode)
    (hok : ∀ nd ∈ nodes, nd.locked = false ∧ nd.writeFails = false)
    (hlen : tgt.length < src.length) :
    src.length - tgt.length ≤ shortfallCount (mapTextNodes src tgt nodes).details := by
  have hfl : ∀ j, ((initState nodes).nodes.getD j defaultNode).locked = false ∧
      ((initState nodes).nodes.getD j defaultNode).writeFails = false := by
    intro j
    simp only [initState]
    rcases h : nodes.get? j with _ | nd
    · rw [getD_nodes_eq, h]
      exact ⟨rfl, rfl⟩
    · rw [getD_nodes_eq, h]
      exact hok nd (List.get?_mem h)
  have hrun := runLoop_shortfall (createScoringMatrix src tgt []).length
    (src.zip (createScoringMatrix src tgt [])) 0 (initState nodes) hfl
  have hzip : (src.zip (createScoringMatrix src tgt [])).length = src.length := by
    rw [List.length_zip, createScoringMatrix_length, min_self]
  have hmle := mapTextNodes_mapped_le src tgt nodes
  have hsame : (mapTextNodes src tgt nodes).details
      = (runLoop (createScoringMatrix src tgt []).length 0
          (src.zip (createScoringMatrix src tgt [])) (initState nodes)).details := rfl
  have hsame2 : (mapTextNodes src tgt nodes).mapped
      = (runLoop (createScoringMatrix src tgt []).length 0
          (src.zip (createScoringMatrix src tgt [])) (initState nodes)).mapped := rfl
  rw [hsame]
  rw [hsame2] at hmle
  rw [hzip] at hrun
  have h0 : shortfallCount (initState nodes).details = 0 := rfl
  have h1 : (initState nodes).mapped = 0 := rfl
  rw [h0, h1] at hrun
  omega

/-- C6 witness: three source leaves against one unlocked target leave at
least two leaves reported `no-candidate` or `all-candidates-claimed`. -/
theorem mapTextNodes_shortfall_witness :
    3 - 1 ≤ shortfallCount (mapTextNodes
      [⟨[0], "", "a", none, none, none⟩, ⟨[1], "", "b", none, none, none⟩,
        ⟨[2], "", "c", none, none, none⟩]
      [⟨[0], "", "t", none, none, none⟩] [⟨"T", "t", false, false⟩]).details :=
  mapTextNodes_shortfall
    [⟨[0], "", "a", none, none, none⟩, ⟨[1], "", "b", none, none, none⟩,
      ⟨[2], "", "c", none, none, none⟩]
    [⟨[0], "", "t", none, none, none⟩] [⟨"T", "t", false, false⟩]
    (by decide) (by decide)

/-- C6 (counterexample): with two source leaves and one locked target leaf
(source count exceeds target count by one), both source leaves are reported
`target-locked`; no leaf at all carries reason `no-candidate` or
`all-candidates-claimed`, contradicting the claimed exhaustiveness of the
two shortfall reasons. -/
theorem shortfall_reasons_not_exhaustive :
    ((mapTextNodes [⟨[0], "", "a", none, none, none⟩, ⟨[1], "N", "b", none, none, none⟩]
        [⟨[0], "N", "t", none, none, none⟩] [⟨"T", "t", true, false⟩]).details
      = [Detail.targetLocked 0 0, Detail.targetLocked 1 0]) ∧
      shortfallCount (mapTextNodes
        [⟨[0], "", "a", none, none, none⟩, ⟨[1], "N", "b", none, none, none⟩]
        [⟨[0], "N", "t", none, none, none⟩] [⟨"T", "t", true, false⟩]).details = 0 ∧
      (mapTextNodes [⟨[0], "", "a", none, none, none⟩, ⟨[1], "N", "b", none, none, none⟩]
        [⟨[0], "N", "t", none, none, none⟩] [⟨"T", "t", true, false⟩]).mapped = 0 := by
  decide

/-- C10: a source-target pair skipped because the selected target is locked,
or because its write failed, leaves the claimed set (and the nodes)
unchanged, so that target stays selectable; concretely, two distinct source
leaves can each select the same locked target as their best candidate and
both are reported `target-locked` instead of falling back to a next-best
unclaimed candidate. -/
theorem locked_skip_leaves_target_unclaimed :
    (∀ (total i : Nat) (src : TextItem) (scores : List Cand) (st : LoopState) (c : Cand),
      scores.find? (fun x => !(st.used.contains x.targetIndex)) = some c →
      (st.nodes.getD c.targetIndex defaultNode).locked = true →
      (step total i src scores st).used = st.used ∧
        (step total i src scores st).details = st.details ++ [.targetLocked i c.targetIndex] ∧
        (step total i src scores st).nodes = st.nodes) ∧
    (∀ (total i : Nat) (src : TextItem) (scores : List Cand) (st : LoopState) (c : Cand),
      scores.find? (fun x => !(st.used.contains x.targetIndex)) = some c →
      (st.nodes.getD c.targetIndex defaultNode).locked = false →
      (st.nodes.getD c.targetIndex defaultNode).writeFails = true →
      (step total i src scores st).used = st.used ∧
        (step total i src scores st).details = st.details ++ [.writeFailed i c.targetIndex] ∧
        (step total i src scores st).nodes = st.nodes) ∧
      ((mapTextNodes
          [⟨[0], "A", "a", none, none, none⟩, ⟨[1], "A", "b", some 12, some ⟨"F", "R"⟩, none⟩]
          [⟨[0], "A", "t", none, none, none⟩, ⟨[9], "", "u", some 12, some ⟨"F", "R"⟩, none⟩]
          [⟨"T", "t", true, false⟩, ⟨"U", "u", false, false⟩]).details
        = [Detail.targetLocked 0 0, Detail.targetLocked 1 0] ∧
        (mapTextNodes
          [⟨[0], "A", "a", none, none, none⟩, ⟨[1], "A", "b", some 12, some ⟨"F", "R"⟩, none⟩]
          [⟨[0], "A", "t", none, none, none⟩, ⟨[9], "", "u", some 12, some ⟨"F", "R"⟩, none⟩]
          [⟨"T", "t", true, false⟩, ⟨"U", "u", false, false⟩]).nodes
        = [⟨"T", "t", true, false⟩, ⟨"U", "u", false, false⟩] ∧
        Q.lt (Q.ofInt 0)
          (candScore ⟨[1], "A", "b", some 12, some ⟨"F", "R"⟩, none⟩
            ⟨[9], "", "u", some 12, some ⟨"F", "R"⟩, none⟩)) := by
  constructor
  · intro total i src scores st c hf hlock
    have hne : scores.isEmpty = false := by
      cases scores
      · simp at hf
      · rfl
    unfold step
    rw [if_neg (by simp [hne])]
    simp only [hf]
    rw [if_pos hlock]
    exact ⟨rfl, rfl, rfl⟩
  · constructor
    · intro total i src scores st c hf hlock hwf
      have hne : scores.isEmpty = false := by
        cases scores
        · simp at hf
        · rfl
      unfold step
      rw [if_neg (by simp [hne])]
      simp only [hf]
      rw [if_neg (by intro hcon; rw [hlock] at hcon; cases hcon), if_pos hwf]
      exact ⟨rfl, rfl, rfl⟩
    · constructor
      · decide
      · constructor
        · decide
        · decide

/-- C10 witness: the step-level facts applied at concrete states — skipping a
locked target, and skipping a target whose write fails, each leave the
claimed set empty and the nodes unchanged. -/
theorem locked_skip_leaves_target_unclaimed_witness :
    ((step 2 0 ⟨[0], "A", "a", none, none, none⟩ [⟨0, 0, Q.ofInt 1550⟩]
        (initState [⟨"T", "t", true, false⟩])).used
      = (initState [⟨"T", "t", true, false⟩]).used ∧
      (step 2 0 ⟨[0], "A", "a", none, none, none⟩ [⟨0, 0, Q.ofInt 1550⟩]
        (initState [⟨"T", "t", true, false⟩])).details
      = (initState [⟨"T", "t", true, false⟩]).details ++ [.targetLocked 0 0] ∧
      (step 2 0 ⟨[0], "A", "a", none, none, none⟩ [⟨0, 0, Q.ofInt 1550⟩]
        (initState [⟨"T", "t", true, false⟩])).nodes
      = (initState [⟨"T", "t", true, false⟩]).nodes) ∧
    ((step 2 0 ⟨[0], "A", "a", none, none, none⟩ [⟨0, 0, Q.ofInt 1550⟩]
        (initState [⟨"T", "t", false, true⟩])).used
      = (initState [⟨"T", "t", false, true⟩]).used ∧
      (step 2 0 ⟨[0], "A", "a", none, none, none⟩ [⟨0, 0, Q.ofInt 1550⟩]
        (initState [⟨"T", "t", false, true⟩])).details
      = (initState [⟨"T", "t", false, true⟩]).details ++ [.writeFailed 0 0] ∧
      (step 2 0 ⟨[0], "A", "a", none, none, none⟩ [⟨0, 0, Q.ofInt 1550⟩]
        (initState [⟨"T", "t", false, true⟩])).nodes
      = (initState [⟨"T", "t", false, true⟩]).nodes) :=
  ⟨locked_skip_leaves_target_unclaimed.1 2 0 ⟨[0], "A", "a", none, none, none⟩
    [⟨0, 0, Q.ofInt 1550⟩] (initState [⟨"T", "t", true, false⟩]) ⟨0, 0, Q.ofInt 1550⟩
    (by decide) (by decide),
  locked_skip_leaves_target_unclaimed.2.1 2 0 ⟨[0], "A", "a", none, none, none⟩
    [⟨0, 0, Q.ofInt 1550⟩] (initState [⟨"T", "t", false, true⟩]) ⟨0, 0, Q.ofInt 1550⟩
    (by decide) (by decide) (by decide)⟩

/-! Signal bounds (C1/C2). -/

theorem pathPart_eq_of_path (s t : TextItem) (h : s.path = t.path) :
    pathPart s t = 1000 := by
  simp [pathPart, h]

theorem pathPart_eq_of_ne (s t : TextItem) (h : s.path ≠ t.path) :
    pathPart s t = 0 := by
  simp [pathPart, h]

theorem namePart_nonneg (s t : TextItem) : 0 ≤ namePart s t := by
  unfold namePart
  split <;> norm_num

theorem namePart_eq_zero (s t : TextItem) (h : ¬(s.name ≠ "" ∧ s.name = t.name)) :
    namePart s t = 0 := by
  simp only [namePart, if_neg h]

theorem fontPart_nonneg (s t : TextItem) : 0 ≤ fontPart s t := by
  cases hs : s.fontName <;> cases ht : t.fontName <;>
    simp only [fontPart, hs, ht] <;> (try split_ifs) <;> norm_num

theorem fontPart_le (s t : TextItem) : fontPart s t ≤ 300 := by
  cases hs : s.fontName <;> cases ht : t.fontName <;>
    simp only [fontPart, hs, ht] <;> (try split_ifs) <;> norm_num

theorem stylePart_nonneg (s t : TextItem) : 0 ≤ stylePart s t := by
  unfold stylePart
  split <;> norm_num

theorem stylePart_le (s t : TextItem) : stylePart s t ≤ 300 := by
  unfold stylePart
  split <;> norm_num

theorem lexPart_nonneg (s t : TextItem) : 0 ≤ lexPart s t := by
  unfold lexPart
  split <;> positivity

theorem lexPart_eq_zero (s t : TextItem)
    (h : ¬(10 < s.characters.length ∧ 10 < t.characters.length)) :
    lexPart s t = 0 := by
  simp only [lexPart, if_neg h]

/-- C2 (counterexample): a non-path-matching target that matches on name,
style id, and font family/size scores 1100, strictly above the 1050 of a
path-matching target with no other signals — the lower-confidence signals
can outweigh the exact-path signal. -/
theorem lower_signals_can_beat_path_signal :
    ((⟨[0], "A", "s0", some 12, some ⟨"F", "R"⟩, some "S"⟩ : TextItem).path
        = (⟨[0], "X", "t0", none, none, none⟩ : TextItem).path) ∧
      ((⟨[0], "A", "s0", some 12, some ⟨"F", "R"⟩, some "S"⟩ : TextItem).path
        ≠ (⟨[1], "A", "t1", some 12, some ⟨"F", "R"⟩, some "S"⟩ : TextItem).path) ∧
      Q.lt (candScore ⟨[0], "A", "s0", some 12, some ⟨"F", "R"⟩, some "S"⟩
          ⟨[0], "X", "t0", none, none, none⟩)
        (candScore ⟨[0], "A", "s0", some 12, some ⟨"F", "R"⟩, some "S"⟩
          ⟨[1], "A", "t1", some 12, some ⟨"F", "R"⟩, some "S"⟩) := by
  decide

/-- C2 (amended): the exact-path signal strictly dominates the combination of
the style-id, font, and path-similarity signals: a non-path-matching target
whose name and lexical signals are both zero always scores strictly below
any path-matching target.  (With the name signal or the unbounded lexical
signal active the dominance fails, as the counterexample shows.) -/
theorem path_signal_dominates_without_name_lex (s t t' : TextItem)
    (hpath : s.path = t.path) (hnp : s.path ≠ t'.path)
    (hname : ¬(s.name ≠ "" ∧ s.name = t'.name))
    (hlex : ¬(10 < s.characters.length ∧ 10 < t'.characters.length)) :
    Q.lt (candScore s t') (candScore s t) := by
  rw [Q.lt_iff, candScore_toRat, candScore_toRat]
  rw [pathPart_eq_of_path s t hpath, pathPart_eq_of_ne s t' hnp,
    namePart_eq_zero s t' hname, lexPart_eq_zero s t' hlex]
  have h1 := fontPart_le s t'
  have h2 := stylePart_le s t'
  have h3 := simPart_le_one s t'
  have h4 := namePart_nonneg s t
  have h5 := fontPart_nonneg s t
  have h6 := stylePart_nonneg s t
  have h7 := lexPart_nonneg s t
  have h8 := simPart_nonneg s t
  linarith

/-- C2 witness: the dominance theorem applied at concrete leaf items. -/
theorem path_signal_dominates_without_name_lex_witness :
    Q.lt (candScore ⟨[0], "", "s", none, none, none⟩ ⟨[1], "", "u", none, none, none⟩)
      (candScore ⟨[0], "", "s", none, none, none⟩ ⟨[0], "", "t", none, none, none⟩) :=
  path_signal_dominates_without_name_lex ⟨[0], "", "s", none, none, none⟩
    ⟨[0], "", "t", none, none, none⟩ ⟨[1], "", "u", none, none, none⟩
    (by decide) (by decide) (by decide) (by decide)

/-! Self-dominance of scores over a snapshot matched against itself (C1). -/

theorem namePart_le_self (s t : TextItem) : namePart s t ≤ namePart s s := by
  by_cases h1 : s.name ≠ "" ∧ s.name = t.name
  · rw [namePart, if_pos h1, namePart, if_pos ⟨h1.1, rfl⟩]
  · rw [namePart, if_neg h1, namePart]
    split <;> norm_num

theorem fontPart_le_self (s t : TextItem) : fontPart s t ≤ fontPart s s := by
  cases hs : s.fontName with
  | none =>
    cases ht : t.fontName <;> simp [fontPart, hs, ht]
  | some sf =>
    cases ht : t.fontName with
    | none =>
      have hzero : fontPart s t = 0 := by simp [fontPart, hs, ht]
      rw [hzero]
      exact fontPart_nonneg s s
    | some tf =>
      by_cases hts : optIntTruthy s.fontSize = true
      · have hself : fontPart s s = 300 := by
          simp [fontPart, hs, hts]
        rw [hself]
        exact fontPart_le s t
      · have hzero : fontPart s t = 0 := by
          simp only [fontPart, hs, ht]
          rw [if_neg (by tauto)]
        rw [hzero]
        exact fontPart_nonneg s s

theorem stylePart_le_self (s t : TextItem) : stylePart s t ≤ stylePart s s := by
  by_cases h1 : optStrTruthy s.textStyleId = true ∧ s.textStyleId = t.textStyleId
  · rw [stylePart, if_pos h1, stylePart, if_pos ⟨h1.1, rfl⟩]
  · rw [stylePart, if_neg h1]
    exact stylePart_nonneg s s

theorem lexCommonCount_le (s t : TextItem) :
    lexCommonCount s t ≤ (jsWords s.characters).length := by
  unfold lexCommonCount
  exact List.length_filter_le _ _

theorem lexCommonCount_self (s : TextItem) :
    lexCommonCount s s = (jsWords s.characters).length := by
  unfold lexCommonCount
  rw [List.filter_eq_self.mpr]
  intro w hw
  simpa using hw

theorem lexPart_le_self (s t : TextItem) : lexPart s t ≤ lexPart s s := by
  by_cases h1 : 10 < s.characters.length ∧ 10 < t.characters.length
  · rw [lexPart, if_pos h1, lexPart, if_pos ⟨h1.1, h1.1⟩]
    have ha := lexCommonCount_le s t
    have hb := lexCommonCount_self s
    have : (lexCommonCount s t : ℚ) ≤ (lexCommonCount s s : ℚ) := by
      rw [hb]; exact_mod_cast ha
    linarith
  · rw [lexPart, if_neg h1]
    exact lexPart_nonneg s s

theorem simPart_le_self (s t : TextItem) : simPart s t ≤ simPart s s := by
  by_cases hp : s.path = []
  · rw [simPart_of_empty s t hp, simPart_of_empty s s hp]
  · rw [simPart_self s hp]
    exact simPart_le_one s t

/-- Against itself, a leaf item scores at least the path weight. -/
theorem candScore_self_ge (s : TextItem) : (1000 : ℚ) ≤ (candScore s s).toRat := by
  rw [candScore_toRat, pathPart_eq_of_path s s rfl]
  have h1 := namePart_nonneg s s
  have h2 := fontPart_nonneg s s
  have h3 := stylePart_nonneg s s
  have h4 := lexPart_nonneg s s
  have h5 := simPart_nonneg s s
  linarith

/-- Within one snapshot with pairwise-distinct paths, a leaf's score against
itself strictly exceeds its score against any other leaf. -/
theorem candScore_self_dominates (s t : TextItem) (hne : s.path ≠ t.path) :
    Q.lt (candScore s t) (candScore s s) := by
  rw [Q.lt_iff, candScore_toRat, candScore_toRat,
    pathPart_eq_of_path s s rfl, pathPart_eq_of_ne s t hne]
  have h1 := namePart_le_self s t
  have h2 := fontPart_le_self s t
  have h3 := stylePart_le_self s t
  have h4 := lexPart_le_self s t
  have h5 := simPart_le_self s t
  linarith

theorem zip_get?' {α β : Type} (l₁ : List α) :
    ∀ (l₂ : List β) (n : Nat),
      (l₁.zip l₂).get? n =
        match l₁.get? n, l₂.get? n with
        | some a, some b => some (a, b)
        | _, _ => none := by
  induction l₁ with
  | nil => intro l₂ n; cases l₂ <;> cases n <;> rfl
  | cons a as ih =>
    intro l₂ n
    cases l₂ with
    | nil => cases n <;> simp
    | cons b bs =>
      cases n with
      | zero => rfl
      | succ n' => simpa [List.zip_cons_cons] using ih bs n'

theorem matrixRows_get? (tgt : List TextItem) (u : List Nat) :
    ∀ (ss : List TextItem) (i0 k : Nat),
      (matrixRows tgt u ss i0).get? k
        = (ss.get? k).map (fun s => rowScores tgt u (i0 + k) s) := by
  intro ss
  induction ss with
  | nil => intro i0 k; simp [matrixRows]
  | cons s rest ih =>
    intro i0 k
    cases k with
    | zero => simp [matrixRows]
    | succ k' =>
      simp only [matrixRows, List.get?_cons_succ, ih (i0 + 1) k']
      have harith : i0 + 1 + k' = i0 + (k' + 1) := by omega
      rw [harith]

/-- The first element of a self-matched row is the same-index candidate. -/
theorem row_head_self (items : List TextItem)
    (hN : (items.map TextItem.path).Nodup) (i : Nat) (hi : i < items.length) :
    (rowScores items [] i (items.get ⟨i, hi⟩)).head? =
      some ⟨i, i, candScore (items.get ⟨i, hi⟩) (items.get ⟨i, hi⟩)⟩ := by
  set s := items.get ⟨i, hi⟩ with hs
  have hpos : Q.lt (Q.ofInt 0) (candScore s s) := by
    rw [Q.lt_iff, Q.toRat_ofInt]
    have := candScore_self_ge s
    push_cast
    linarith
  have hmem : (⟨i, i, candScore s s⟩ : Cand) ∈ rowScores items [] i s := by
    rw [rowScores, mem_sortByScoreDesc, mem_rowCandsFrom]
    exact ⟨i, hi, by simp [hs], by simp, by rw [← hs]; exact hpos⟩
  have hsorted := scoresDesc_sortByScoreDesc (rowCandsFrom s [] i items 0)
  rw [rowScores] at hmem ⊢
  rcases hl : sortByScoreDesc (rowCandsFrom s [] i items 0) with _ | ⟨h, tl⟩
  · rw [hl] at hmem
    cases hmem
  · rw [hl] at hmem hsorted
    simp only [List.head?_cons]
    have hhmem : h ∈ sortByScoreDesc (rowCandsFrom s [] i items 0) := by
      rw [hl]; exact List.mem_cons_self _ _
    rw [mem_sortByScoreDesc, mem_rowCandsFrom] at hhmem
    rcases hhmem with ⟨k, hk, hck, _, _⟩
    by_cases hki : k = i
    · subst hki
      simp only [Nat.zero_add] at hck
      rw [hck]
    · exfalso
      have hpathne : s.path ≠ (items.get ⟨k, hk⟩).path := by
        intro hcontra
        have hinj : items.get ⟨i, hi⟩ = items.get ⟨i, hi⟩ := rfl
        have := List.Nodup.get_inj_iff hN
          (i := ⟨i, by simpa using hi⟩) (j := ⟨k, by simpa using hk⟩)
        rw [List.get_map, List.get_map] at this
        have heq : (items.get ⟨i, hi⟩).path = (items.get ⟨k, hk⟩).path := hcontra
        have := this.mp heq
        exact hki (by simpa using this.symm)
      have hdom := candScore_self_dominates s (items.get ⟨k, hk⟩) hpathne
      have hcstar : (⟨i, i, candScore s s⟩ : Cand) ∈ h :: tl := hmem
      rcases List.mem_cons.mp hcstar with hceq | hctl
      · have : h.targetIndex = i := by rw [← hceq]
        rw [hck] at this
        simp only at this
        exact hki (by omega)
      · rcases List.pairwise_cons.mp hsorted with ⟨hhd, _⟩
        have hle := hhd _ hctl
        simp only at hle
        rw [hck] at hle
        simp only at hle
        rw [Q.le_iff] at hle
        rw [Q.lt_iff] at hdom
        linarith

theorem step_details_one (total i : Nat) (src : TextItem) (scores : List Cand)
    (st : LoopState) :
    ∃ d, (step total i src scores st).details = st.details ++ [d] := by
  unfold step
  split
  · exact ⟨_, rfl⟩
  · split
    · exact ⟨_, rfl⟩
    · dsimp only
      split_ifs
      · exact ⟨_, rfl⟩
      · exact ⟨_, rfl⟩
      · exact ⟨_, rfl⟩

theorem runLoop_details_grow (total : Nat) :
    ∀ (rows : List (TextItem × List Cand)) (i : Nat) (st : LoopState),
      ∃ ds, (runLoop total i rows st).details = st.details ++ ds := by
  intro rows
  induction rows with
  | nil => intro i st; exact ⟨[], by simp [runLoop]⟩
  | cons p rest ih =>
    intro i st
    rcases p with ⟨src, scores⟩
    rw [runLoop]
    rcases step_details_one total i src scores st with ⟨d, hd⟩
    rcases ih (i + 1) (step total i src scores st) with ⟨ds, hds⟩
    exact ⟨[d] ++ ds, by rw [hds, hd, List.append_assoc]⟩

theorem step_mapped_eq (total i : Nat) (src : TextItem) (scores : List Cand) (st : LoopState)
    (c : Cand) (hf : scores.find? (fun x => !(st.used.contains x.targetIndex)) = some c)
    (hsc : scores.find? (fun d => d.targetIndex == c.targetIndex) = some c)
    (hl : (st.nodes.getD c.targetIndex defaultNode).locked = false)
    (hw : (st.nodes.getD c.targetIndex defaultNode).writeFails = false) :
    (step total i src scores st).details = st.details ++ [.mappedOk i c.targetIndex c.score] ∧
      (step total i src scores st).used = c.targetIndex :: st.used := by
  have hne : scores.isEmpty = false := by
    cases scores
    · simp at hf
    · rfl
  unfold step
  rw [if_neg (by simp [hne])]
  simp only [hf]
  rw [if_neg (by intro hcon; rw [hl] at hcon; cases hcon),
    if_neg (by intro hcon; rw [hw] at hcon; cases hcon)]
  dsimp only
  rw [hsc]
  exact ⟨rfl, rfl⟩

theorem find?_eq_head {α : Type} (l : List α) (p : α → Bool) (a : α)
    (h : l.head? = some a) (hp : p a = true) : l.find? p = some a := by
  cases l with
  | nil => simp at h
  | cons x xs =>
    simp only [List.head?_cons, Option.some.injEq] at h
    subst h
    exact List.find?_cons_of_pos _ hp

theorem runLoop_identical (items : List TextItem)
    (hN : (items.map TextItem.path).Nodup) (total : Nat) :
    ∀ (rows : List (TextItem × List Cand)) (i : Nat) (st : LoopState),
      (∀ k, rows.get? k = (items.zip (createScoringMatrix items items [])).get? (i + k)) →
      (∀ x, x ∈ st.used ↔ x < i) →
      (∀ j, (st.nodes.getD j defaultNode).locked = false ∧
        (st.nodes.getD j defaultNode).writeFails = false) →
      ∀ k, i ≤ k → ∀ hk : k < items.length,
        (runLoop total i rows st).details.get? (st.details.length + (k - i))
          = some (.mappedOk k k (candScore (items.get ⟨k, hk⟩) (items.get ⟨k, hk⟩))) := by
  have hzlen : (items.zip (createScoringMatrix items items [])).length = items.length := by
    rw [List.length_zip, createScoringMatrix_length, min_self]
  intro rows
  induction rows with
  | nil =>
    intro i st hrows hused hfl k hik hk
    exfalso
    have h0 := hrows 0
    simp only [List.get?_nil] at h0
    have hnone := h0.symm
    rw [List.get?_eq_none, hzlen] at hnone
    omega
  | cons p rest ih =>
    intro i st hrows hused hfl k hik hk
    rcases p with ⟨src, scores⟩
    have h0 := hrows 0
    simp only [List.get?_cons_zero, Nat.add_zero] at h0
    have hzi := h0.symm
    have hi : i < items.length := by
      rcases List.get?_eq_some.mp hzi with ⟨hlt, _⟩
      rwa [hzlen] at hlt
    have hmat : (createScoringMatrix items items []).get? i
        = some (rowScores items [] i (items.get ⟨i, hi⟩)) := by
      rw [createScoringMatrix, matrixRows_get?]
      rw [List.get?_eq_get hi]
      simp
    have hit : items.get? i = some (items.get ⟨i, hi⟩) := List.get?_eq_get hi
    rw [zip_get?'] at hzi
    rw [hit, hmat] at hzi
    have hpq : (items.get ⟨i, hi⟩, rowScores items [] i (items.get ⟨i, hi⟩))
        = (src, scores) := Option.some.inj hzi
    injection hpq with hsrc hscores
    have hhead := row_head_self items hN i hi
    rw [hscores] at hhead
    have hni : i ∉ st.used := fun hmem => absurd ((hused i).mp hmem) (lt_irrefl i)
    have hfind : scores.find? (fun x => !(st.used.contains x.targetIndex))
        = some ⟨i, i, candScore (items.get ⟨i, hi⟩) (items.get ⟨i, hi⟩)⟩ :=
      find?_eq_head _ _ _ hhead (by simpa using hni)
    have hsc2 : scores.find? (fun d => d.targetIndex ==
        (⟨i, i, candScore (items.get ⟨i, hi⟩) (items.get ⟨i, hi⟩)⟩ : Cand).targetIndex)
        = some ⟨i, i, candScore (items.get ⟨i, hi⟩) (items.get ⟨i, hi⟩)⟩ :=
      find?_eq_head _ _ _ hhead (by simp)
    obtain ⟨hdet, husedeq⟩ := step_mapped_eq total i src scores st _ hfind hsc2
      (hfl i).1 (hfl i).2
    rw [runLoop]
    by_cases hki : k = i
    · subst hki
      rcases runLoop_details_grow total rest (k + 1) (step total k src scores st)
        with ⟨ds, hds⟩
      rw [hds, hdet, Nat.sub_self, Nat.add_zero, List.append_assoc,
        List.get?_append_right (le_refl st.details.length), Nat.sub_self]
      rfl
    · have hik' : i + 1 ≤ k := by omega
      have hrows' : ∀ k', rest.get? k'
          = (items.zip (createScoringMatrix items items [])).get? (i + 1 + k') := by
        intro k'
        have h := hrows (k' + 1)
        simp only [List.get?_cons_succ] at h
        rw [h]
        congr 1
        omega
      have hused' : ∀ x, x ∈ (step total i src scores st).used ↔ x < i + 1 := by
        intro x
        rw [husedeq]
        simp only [List.mem_cons, hused x]
        omega
      have hfl' : ∀ j, (((step total i src scores st).nodes.getD j defaultNode).locked = false ∧
          ((step total i src scores st).nodes.getD j defaultNode).writeFails = false) := by
        intro j
        rcases step_flags total i src scores st j with ⟨f1, f2⟩
        rw [f1, f2]
        exact hfl j
      have hrec := ih (i + 1) (step total i src scores st) hrows' hused' hfl' k hik' hk
      rw [hdet, List.length_append, List.length_singleton] at hrec
      have hp : st.details.length + (k - i) = st.details.length + 1 + (k - (i + 1)) := by
        omega
      rw [hp]
      exact hrec

theorem initState_flags (nodes : List TargetNode)
    (hok : ∀ nd ∈ nodes, nd.locked = false ∧ nd.writeFails = false) (j : Nat) :
    ((initState nodes).nodes.getD j defaultNode).locked = false ∧
      ((initState nodes).nodes.getD j defaultNode).writeFails = false := by
  simp only [initState]
  rcases h : nodes.get? j with _ | nd
  · rw [getD_nodes_eq, h]
    exact ⟨rfl, rfl⟩
  · rw [getD_nodes_eq, h]
    exact hok nd (List.get?_mem h)

/-- C1 (amended): when source and target snapshots are identical leaf by leaf
(same paths, names, contents and attributes in traversal order), the paths
are pairwise distinct, and no target node is locked or failing its write,
the resolution assigns every source leaf `k` to the target leaf of the same
index `k` — the one whose path is element-wise equal to its own — and the
recorded score of each such pair is at least 1000. -/
theorem identical_snapshots_assign_by_path (items : List TextItem)
    (nodes : List TargetNode)
    (hN : (items.map TextItem.path).Nodup)
    (hok : ∀ nd ∈ nodes, nd.locked = false ∧ nd.writeFails = false)
    (k : Nat) (hk : k < items.length) :
    (mapTextNodes items items nodes).details.get? k
      = some (.mappedOk k k (candScore (items.get ⟨k, hk⟩) (items.get ⟨k, hk⟩))) ∧
      Q.le (Q.ofInt 1000) (candScore (items.get ⟨k, hk⟩) (items.get ⟨k, hk⟩)) := by
  constructor
  · have h := runLoop_identical items hN (createScoringMatrix items items []).length
      (items.zip (createScoringMatrix items items [])) 0 (initState nodes)
      (fun k' => by rw [Nat.zero_add]) (by intro x; simp [initState])
      (initState_flags nodes hok) k (Nat.zero_le k) hk
    have hsame : (mapTextNodes items items nodes).details
        = (runLoop (createScoringMatrix items items []).length 0
            (items.zip (createScoringMatrix items items [])) (initState nodes)).details := rfl
    rw [hsame]
    have h0 : (initState nodes).details.length = 0 := rfl
    rw [h0] at h
    simpa using h
  · rw [Q.le_iff, Q.toRat_ofInt]
    have h := candScore_self_ge (items.get ⟨k, hk⟩)
    exact_mod_cast h

/-- C1 witness: a two-leaf snapshot transferred onto an identical snapshot
maps leaf 0 onto target 0 with score at least 1000. -/
theorem identical_snapshots_assign_by_path_witness :
    (mapTextNodes
        [⟨[0], "", "a", none, none, none⟩, ⟨[1], "", "b", none, none, none⟩]
        [⟨[0], "", "a", none, none, none⟩, ⟨[1], "", "b", none, none, none⟩]
        [⟨"A", "a", false, false⟩, ⟨"B", "b", false, false⟩]).details.get? 0
      = some (.mappedOk 0 0 (candScore
          (([⟨[0], "", "a", none, none, none⟩, ⟨[1], "", "b", none, none, none⟩] :
              List TextItem).get ⟨0, by decide⟩)
          (([⟨[0], "", "a", none, none, none⟩, ⟨[1], "", "b", none, none, none⟩] :
              List TextItem).get ⟨0, by decide⟩))) ∧
      Q.le (Q.ofInt 1000) (candScore
        (([⟨[0], "", "a", none, none, none⟩, ⟨[1], "", "b", none, none, none⟩] :
            List TextItem).get ⟨0, by decide⟩)
        (([⟨[0], "", "a", none, none, none⟩, ⟨[1], "", "b", none, none, none⟩] :
            List TextItem).get ⟨0, by decide⟩)) :=
  identical_snapshots_assign_by_path
    [⟨[0], "", "a", none, none, none⟩, ⟨[1], "", "b", none, none, none⟩]
    [⟨"A", "a", false, false⟩, ⟨"B", "b", false, false⟩]
    (by decide) (by decide) 0 (by decide)

/-- C1 (counterexample): two snapshots with identical path sequences (same
leaf count, pairwise-equal paths) where source leaf 0 is nevertheless
assigned to target leaf 1, whose path `[1]` differs from its own `[0]`:
name, style and font agreement on a non-path target (1100) outweighs the
path match (1050). -/
theorem structural_identity_alone_insufficient :
    (([⟨[0], "A", "s0", some 12, some ⟨"F", "R"⟩, some "S"⟩,
        ⟨[1], "B", "s1", none, none, none⟩] : List TextItem).map TextItem.path
      = ([⟨[0], "X", "t0", none, none, none⟩,
          ⟨[1], "A", "t1", some 12, some ⟨"F", "R"⟩, some "S"⟩] : List TextItem).map
          TextItem.path) ∧
      (mapTextNodes
        [⟨[0], "A", "s0", some 12, some ⟨"F", "R"⟩, some "S"⟩,
          ⟨[1], "B", "s1", none, none, none⟩]
        [⟨[0], "X", "t0", none, none, none⟩,
          ⟨[1], "A", "t1", some 12, some ⟨"F", "R"⟩, some "S"⟩]
        [⟨"X", "t0", false, false⟩, ⟨"A", "t1", false, false⟩]).details.get? 0
        = some (.mappedOk 0 1 ⟨1100, 1, Nat.one_pos⟩) ∧
      ((⟨[1], "A", "t1", some 12, some ⟨"F", "R"⟩, some "S"⟩ : TextItem).path
        ≠ (⟨[0], "A", "s0", some 12, some ⟨"F", "R"⟩, some "S"⟩ : TextItem).path) := by
  decide

/-! Indexer correctness (C8). -/

theorem specDfsList_nil (p : List Nat) (i : Nat) : specDfsList [] p i = [] := rfl

theorem specDfsList_cons (c : SNode) (cs : List SNode) (p : List Nat) (i : Nat) :
    specDfsList (c :: cs) p i = specDfsItems c (p ++ [i]) ++ specDfsList cs p (i + 1) := rfl

theorem specDfsItems_eq (n : SNode) (p : List Nat) :
    specDfsItems n p
      = (if n.isText then [itemOfNode n p] else []) ++ specDfsList n.children p 0 := by
  cases n
  rfl

theorem specTextCount_eq (n : SNode) :
    specTextCount n = (if n.isText then 1 else 0) + specTextCountList n.children := by
  cases n
  rfl

theorem specTextCountList_nil : specTextCountList [] = 0 := rfl

theorem specTextCountList_cons (c : SNode) (cs : List SNode) :
    specTextCountList (c :: cs) = specTextCount c + specTextCountList cs := rfl

theorem SNode.size_eq (n : SNode) : SNode.size n = 1 + sizeList n.children := by
  cases n
  rfl

theorem sizeList_nil : sizeList [] = 0 := rfl

theorem sizeList_cons (c : SNode) (cs : List SNode) :
    sizeList (c :: cs) = SNode.size c + sizeList cs := rfl

theorem childEntriesFrom_join (cs : List SNode) (p : List Nat) (d : Nat) :
    ∀ i, ((childEntriesFrom p d cs i).map (fun e => specDfsItems e.node e.path)).flatten
      = specDfsList cs p i := by
  induction cs with
  | nil => intro i; simp [childEntriesFrom, specDfsList_nil]
  | cons c rest ih =>
    intro i
    simp only [childEntriesFrom, List.map_cons, List.flatten_cons, specDfsList_cons, ih (i + 1)]

theorem visit_items (e : StackEntry) (acc : IndexAcc) :
    (visit e acc).items
      = acc.items ++ (if e.node.isText then [itemOfNode e.node e.path] else []) := by
  unfold visit
  dsimp only
  split_ifs <;> simp

theorem idxLoop_items (st : List StackEntry) (acc : IndexAcc) :
    (idxLoop st acc).items
      = acc.items ++ (st.map (fun e => specDfsItems e.node e.path)).flatten := by
  induction st, acc using idxLoop.induct with
  | case1 acc => simp [idxLoop]
  | case2 e rest acc ih =>
    rw [idxLoop, ih, visit_items]
    rw [List.map_append, List.flatten_append, childEntries, childEntriesFrom_join]
    rw [List.map_cons, List.flatten_cons, specDfsItems_eq]
    simp [List.append_assoc]

/-- The indexer's item list is exactly the natural left-to-right depth-first
listing rooted at path `[]`. -/
theorem indexTextNodes_items (root : SNode) :
    (indexTextNodes root).items = specDfsItems root [] := by
  unfold indexTextNodes
  dsimp only
  rw [idxLoop_items]
  simp

theorem size_pos (n : SNode) : 1 ≤ SNode.size n := by
  rw [SNode.size_eq]
  omega

theorem specDfsList_length_fuel :
    ∀ (N : Nat) (cs : List SNode), sizeList cs ≤ N → ∀ (p : List Nat) (i : Nat),
      (specDfsList cs p i).length = specTextCountList cs := by
  intro N
  induction N with
  | zero =>
    intro cs h p i
    cases cs with
    | nil => simp [specDfsList_nil, specTextCountList_nil]
    | cons c rest =>
      exfalso
      have := size_pos c
      rw [sizeList_cons] at h
      omega
  | succ N ih =>
    intro cs h p i
    cases cs with
    | nil => simp [specDfsList_nil, specTextCountList_nil]
    | cons c rest =>
      have hsz := size_pos c
      have hce : SNode.size c = 1 + sizeList c.children := SNode.size_eq c
      rw [sizeList_cons] at h
      have hszc : sizeList c.children ≤ N := by omega
      have hszr : sizeList rest ≤ N := by omega
      rw [specDfsList_cons, specTextCountList_cons, List.length_append]
      have hitem : (specDfsItems c (p ++ [i])).length = specTextCount c := by
        rw [specDfsItems_eq, specTextCount_eq, List.length_append,
          ih c.children hszc (p ++ [i]) 0]
        cases hc : c.isText <;> simp
      rw [hitem, ih rest hszr p (i + 1)]

theorem specDfsItems_length (n : SNode) (p : List Nat) :
    (specDfsItems n p).length = specTextCount n := by
  rw [specDfsItems_eq, specTextCount_eq, List.length_append,
    specDfsList_length_fuel (sizeList n.children) n.children (le_refl _) p 0]
  cases hc : n.isText <;> simp

theorem nodeFromList (c : SNode) (p' : List Nat)
    (ha : ∀ q ∈ (specDfsList c.children p' 0).map TextItem.path, ∃ j r, q = p' ++ j :: r)
    (hb : ((specDfsList c.children p' 0).map TextItem.path).Nodup) :
    (∀ q ∈ (specDfsItems c p').map TextItem.path, ∃ r, q = p' ++ r) ∧
      ((specDfsItems c p').map TextItem.path).Nodup := by
  constructor
  · intro q hq
    rw [specDfsItems_eq, List.map_append] at hq
    rcases List.mem_append.mp hq with hq | hq
    · refine ⟨[], ?_⟩
      cases hc : c.isText <;> rw [hc] at hq <;> simp [itemOfNode] at hq
      simp [hq]
    · rcases ha q hq with ⟨j, r, rfl⟩
      exact ⟨j :: r, rfl⟩
  · rw [specDfsItems_eq, List.map_append, List.nodup_append]
    refine ⟨?_, hb, ?_⟩
    · cases hc : c.isText <;> simp
    · intro q hq hq2
      rcases ha q hq2 with ⟨j, r, heq⟩
      cases hc : c.isText <;> rw [hc] at hq <;> simp [itemOfNode] at hq
      rw [hq] at heq
      have := congrArg List.length heq
      simp at this

theorem specDfsList_paths_fuel :
    ∀ (N : Nat) (cs : List SNode), sizeList cs ≤ N → ∀ (p : List Nat) (i : Nat),
      (∀ q ∈ (specDfsList cs p i).map TextItem.path, ∃ j r, i ≤ j ∧ q = p ++ j :: r) ∧
        ((specDfsList cs p i).map TextItem.path).Nodup := by
  intro N
  induction N with
  | zero =>
    intro cs h p i
    cases cs with
    | nil => simp [specDfsList_nil]
    | cons c rest =>
      exfalso
      have := size_pos c
      rw [sizeList_cons] at h
      omega
  | succ N ih =>
    intro cs h p i
    cases cs with
    | nil => simp [specDfsList_nil]
    | cons c rest =>
      have hsz := size_pos c
      have hce : SNode.size c = 1 + sizeList c.children := SNode.size_eq c
      rw [sizeList_cons] at h
      have hszc : sizeList c.children ≤ N := by omega
      have hszr : sizeList rest ≤ N := by omega
      have hcnode := nodeFromList c (p ++ [i])
        (fun q hq => by
          rcases (ih c.children hszc (p ++ [i]) 0).1 q hq with ⟨j, r, _, heq⟩
          exact ⟨j, r, heq⟩)
        (ih c.children hszc (p ++ [i]) 0).2
      rcases hcnode with ⟨na, nb⟩
      rcases ih rest hszr p (i + 1) with ⟨ra, rb⟩
      constructor
      · intro q hq
        rw [specDfsList_cons, List.map_append] at hq
        rcases List.mem_append.mp hq with hq | hq
        · rcases na q hq with ⟨r, rfl⟩
          exact ⟨i, r, le_refl i, by simp⟩
        · rcases ra q hq with ⟨j, r, hj, rfl⟩
          exact ⟨j, r, by omega, rfl⟩
      · rw [specDfsList_cons, List.map_append, List.nodup_append]
        refine ⟨nb, rb, ?_⟩
        intro q hq hq2
        rcases na q hq with ⟨r, rfl⟩
        rcases ra _ hq2 with ⟨j, r', hj, heq⟩
        have heq2 : p ++ i :: r = p ++ j :: r' := by
          rw [← heq]
          simp
        have := List.append_cancel_left heq2
        injection this with h1 _
        omega

/-- C8: the indexer produces exactly the natural left-to-right depth-first
leaf listing rooted at path `[]` (children pushed in reverse onto the
explicit stack pop in natural order), its leaf count equals the number of
text-bearing nodes of the subtree, and the produced paths are pairwise
distinct, so each path identifies exactly one leaf. -/
theorem indexTextNodes_correct (root : SNode) :
    (indexTextNodes root).items = specDfsItems root [] ∧
      (indexTextNodes root).items.length = specTextCount root ∧
      ((indexTextNodes root).items.map TextItem.path).Nodup := by
  have h1 := indexTextNodes_items root
  refine ⟨h1, by rw [h1, specDfsItems_length], ?_⟩
  rw [h1]
  have hfl := specDfsList_paths_fuel (sizeList root.children) root.children
    (le_refl _) [] 0
  exact (nodeFromList root []
    (fun q hq => by
      rcases hfl.1 q hq with ⟨j, r, _, heq⟩
      exact ⟨j, r, heq⟩) hfl.2).2

/-- C7: clearing the payload (which resets both the in-memory payload and
the payload store) makes the next paste attempt fail with the fatal
no-payload error, and that paste leaves every target leaf untouched. -/
theorem clear_then_paste_fails (st : PluginState) (frame : SNode) :
    handlePaste (handleClear st) frame = Except.error noPayloadMessage ∧
      pasteFinalNodes (handleClear st) frame = (indexTextNodes frame).nodes := by
  constructor
  · rfl
  · rfl

